import Mathlib

/-!
# Verification of the cinema ticket server core

A shallow embedding of `src/ticket_server.cpp` (class `TicketServer`): the
in-memory state (events catalog, reservation store, expiration index, cookie
set, ticket cursor, purchase history), the three request handlers, the
identifier generators and the expiration sweeper, together with proofs of the
specification's claims about them.

Bytes are modelled as `Nat` (with explicit `% 2^16` / `% 2^32` where the C++
code works in `uint16_t` / `uint32_t`), `std::map` as an association list kept
sorted by key, `std::unordered_set` / `std::unordered_map` as plain lists
(iteration order of the hash containers is unspecified in the source; the
claims under verification do not depend on it).  Fallible code — dereferencing
a `std::map` iterator that may equal `end()`, and the non-terminating random
cookie loop — is modelled with `Option`.
-/

namespace Cinema

/-- A byte of a datagram, 0‥255 in well-formed traffic. -/
abbrev Byte := Nat

/-- A cookie: in the source a `std::string` of raw chars. -/
abbrev Cookie := List Byte

/-- Source: `MIN_RESERVATION_ID` from the source. -/
def MIN_RESERVATION_ID : Nat := 1000000

/-- Source: `MAX_TICKETS` from the source. -/
def MAX_TICKETS : Nat := 9357

/-- Source: `COOKIE_LEN` from the source. -/
def COOKIE_LEN : Nat := 48

/-- Source: `MIN_COOKIE_CHAR` (ASCII 33) from the source. -/
def MIN_COOKIE_CHAR : Nat := 33

/-- Source: `MAX_COOKIE_CHAR` (ASCII 126) from the source. -/
def MAX_COOKIE_CHAR : Nat := 126

/-- Source: `MAX_DATAGRAM` from the source. -/
def MAX_DATAGRAM : Nat := 65507

/-- Source: `std::numeric_limits<uint32_t>::max()`. -/
def UINT32_MAX : Nat := 4294967295

/-- Source: `GET_EVENTS_LEN` from the source. -/
def GET_EVENTS_LEN : Nat := 1

/-- Source: `GET_RESERVATION_LEN` from the source. -/
def GET_RESERVATION_LEN : Nat := 7

/-- Source: `GET_TICKETS_LEN` from the source. -/
def GET_TICKETS_LEN : Nat := 53

/-- Big-endian encoding of a 16-bit value (`htons` on a little-endian host). -/
def encU16 (n : Nat) : List Byte := [n / 256 % 256, n % 256]

/-- Big-endian encoding of a 32-bit value (`htonl` on a little-endian host). -/
def encU32 (n : Nat) : List Byte :=
  [n / 16777216 % 256, n / 65536 % 256, n / 256 % 256, n % 256]

/-- Big-endian encoding of a 64-bit value (`htobe64` on a little-endian host). -/
def encU64 (n : Nat) : List Byte :=
  [n / 2 ^ 56 % 256, n / 2 ^ 48 % 256, n / 2 ^ 40 % 256, n / 2 ^ 32 % 256,
   n / 2 ^ 24 % 256, n / 2 ^ 16 % 256, n / 2 ^ 8 % 256, n % 256]

/-- Big-endian decode of 4 bytes at `off` into a `uint32_t`
(`htonl(*buffer_read<event_id>(buffer, off))`). -/
def decodeU32 (l : List Byte) (off : Nat) : Nat :=
  (l.getD off 0 * 16777216 + l.getD (off + 1) 0 * 65536 +
   l.getD (off + 2) 0 * 256 + l.getD (off + 3) 0) % 2 ^ 32

/-- Big-endian decode of 2 bytes at `off` into a `uint16_t`
(`htons(*buffer_read<tickets_t>(buffer, off))`). -/
def decodeU16 (l : List Byte) (off : Nat) : Nat :=
  (l.getD off 0 * 256 + l.getD (off + 1) 0) % 2 ^ 16

/-- Key lookup in an association list (`map::find` / `unordered_map::find`). -/
def lookupA {α : Type} : List (Nat × α) → Nat → Option α
  | [], _ => none
  | (k, v) :: rest, key => if key = k then some v else lookupA rest key

/-- Insert-or-assign keeping keys sorted (`std::map::operator[]` followed by
assignment; the tree keeps its keys in ascending order). -/
def insertSorted {α : Type} : List (Nat × α) → Nat → α → List (Nat × α)
  | [], k, v => [(k, v)]
  | (k1, v1) :: rest, k, v =>
    if k < k1 then (k, v) :: (k1, v1) :: rest
    else if k = k1 then (k, v) :: rest
    else (k1, v1) :: insertSorted rest k v

/-- Erase a key from an association list (`std::map::erase` of the iterator
returned by `find`). -/
def eraseKey {α : Type} : List (Nat × α) → Nat → List (Nat × α)
  | [], _ => []
  | (k1, v1) :: rest, k => if k = k1 then rest else (k1, v1) :: eraseKey rest k

/-- The value type of the `reserved` map:
`<(cookie, expiration time), (event id, tickets)>`. -/
structure ReservationData where
  cookie : Cookie
  expiration_time : Nat
  event : Nat
  tickets : Nat
deriving DecidableEq

/-- The mutable state of the `TicketServer` object.  `events` carries, per
event id, the description bytes and the `uint16_t` count of available tickets;
`reserved` and `expiration` are `std::map`s (sorted association lists);
`cookies` is the `unordered_set` of live cookies; `purchased` the
`unordered_map` of redeemed ticket lists. -/
structure TicketServer where
  events : List (Nat × List Byte × Nat)
  reserved : List (Nat × ReservationData)
  expiration : List (Nat × List Nat)
  cookies : List Cookie
  next_ticket : List Byte
  purchased : List (Nat × List (List Byte))
  timeout : Nat
deriving DecidableEq

/-- Source: `events[event].second -= tickets` on a `uint16_t` field: wrapping
subtraction; `operator[]` value-initialises a missing entry first. -/
def debitTickets (es : List (Nat × List Byte × Nat)) (e t : Nat) :
    List (Nat × List Byte × Nat) :=
  match es with
  | [] => [(e, [], (0 + 65536 - t) % 65536)]
  | (k, d, a) :: rest =>
    if k = e then (k, d, (a + 65536 - t) % 65536) :: rest
    else (k, d, a) :: debitTickets rest e t

/-- Source: `events[event].second += tickets` on a `uint16_t` field: wrapping
addition; `operator[]` value-initialises a missing entry first. -/
def creditTickets (es : List (Nat × List Byte × Nat)) (e t : Nat) :
    List (Nat × List Byte × Nat) :=
  match es with
  | [] => [(e, [], t % 65536)]
  | (k, d, a) :: rest =>
    if k = e then (k, d, (a + t) % 65536) :: rest
    else (k, d, a) :: creditTickets rest e t

/-- Source: `expiration[time].insert(rid)`: `operator[]` creates an empty set when the
key is absent; `unordered_set::insert` is a no-op on a present element. -/
def expirationInsert (idx : List (Nat × List Nat)) (t rid : Nat) :
    List (Nat × List Nat) :=
  let rs := (lookupA idx t).getD []
  insertSorted idx t (if rid ∈ rs then rs else rs ++ [rid])

/-- Source: `expiration[time].erase(rid)`: `operator[]` creates an empty set when the
key is absent. -/
def expirationErase (idx : List (Nat × List Nat)) (t rid : Nat) :
    List (Nat × List Nat) :=
  insertSorted idx t (((lookupA idx t).getD []).erase rid)

/-- Source: `TicketServer::generate_ticket`'s successor step on the 7-char cursor,
position 0 first: `'Z' → '0'` with carry, `'9' → 'A'` stop, otherwise `+1`
stop (char codes: `'0'` = 48, `'9'` = 57, `'A'` = 65, `'Z'` = 90). -/
def ticket_succ : List Byte → List Byte
  | [] => []
  | c :: rest =>
    if c = 90 then 48 :: ticket_succ rest
    else if c = 57 then 65 :: rest
    else (c + 1) :: rest

/-- Source: `TicketServer::generate_ticket`: returns the current cursor and advances
it by `ticket_succ`. -/
def generate_ticket (s : TicketServer) : List Byte × TicketServer :=
  (s.next_ticket, { s with next_ticket := ticket_succ s.next_ticket })

/-- Source: `std::generate_n(..., ticket_count, generate_ticket)`: the list of codes
issued starting from cursor `cur`, together with the final cursor. -/
def generate_tickets : Nat → List Byte → List (List Byte) × List Byte
  | 0, cur => ([], cur)
  | n + 1, cur =>
    let out := generate_tickets n (ticket_succ cur)
    (cur :: out.1, out.2)

/-- The `std::adjacent_find(reserved.begin(), reserved.end(), last_in)` call:
first key whose successor key is not key + 1; `none` models the end iterator. -/
def adjacent_gap : List Nat → Option Nat
  | a :: b :: rest => if a + 1 ≠ b then some a else adjacent_gap (b :: rest)
  | _ => none

/-- Source: `TicketServer::generate_reservation_id`, as a function of the ascending
key list of `reserved` (the only data it reads).  `none` models dereferencing
the `end()` iterator returned by a failed `adjacent_find`. -/
def generate_reservation_id (keys : List Nat) : Option Nat :=
  match keys with
  | [] => some MIN_RESERVATION_ID
  | k :: ks =>
    let largest := ks.getLastD k
    if largest ≤ UINT32_MAX - 1 then some (largest + 1)
    else if 1 ≤ k then some (k - 1)
    else (adjacent_gap (k :: ks)).map (· + 1)

/-- Source: `TicketServer::generate_cookie`: the do/while loop draws uniformly random
48-char candidates until one is not a live cookie.  `draws` is the stream of
candidates the RNG produces; `none` models a non-terminating loop. -/
def generate_cookie (cookies : List Cookie) (draws : List Cookie) : Option Cookie :=
  draws.find? (fun c => decide (c ∉ cookies))

/-- Source: `TicketServer::create_reservation`.  Returns the reservation id, cookie,
expiration time, and the updated state. -/
def create_reservation (now : Nat) (draws : List Cookie) (event tickets : Nat)
    (s : TicketServer) : Option (Nat × Cookie × Nat × TicketServer) :=
  let expiration_time := s.timeout + now
  match generate_reservation_id (s.reserved.map Prod.fst) with
  | none => none
  | some reservation =>
    match generate_cookie s.cookies draws with
    | none => none
    | some cookie =>
      some (reservation, cookie, expiration_time,
        { s with
          events := debitTickets s.events event tickets,
          reserved := insertSorted s.reserved reservation
            ⟨cookie, expiration_time, event, tickets⟩,
          expiration := expirationInsert s.expiration expiration_time reservation,
          cookies := cookie :: s.cookies })

/-- Source: `TicketServer::remove_reservation`: `none` models the dereference of
`reserved.find(reservation)` when it equals `end()` (the source does not
check). -/
def remove_reservation (reservation : Nat) (s : TicketServer) : Option TicketServer :=
  match lookupA s.reserved reservation with
  | none => none
  | some r =>
    some { s with
      cookies := s.cookies.erase r.cookie,
      reserved := eraseKey s.reserved reservation,
      events := creditTickets s.events r.event r.tickets }

/-- The walk of the sweeper loop `for (auto it = expiration.begin();
it->first < time && it != expiration.end(); it++)`: splits the index into the
consumed entries and the remainder.  The boolean records whether the loop
condition evaluated `it->first` with `it = expiration.end()` — the source
reads the key *before* testing for the end iterator, so reaching the end of
the list (also when it is empty) performs that read; in this total embedding
the lookup at the end yields no key and the walk stops. -/
def sweepSplit (now : Nat) :
    List (Nat × List Nat) → List (Nat × List Nat) × List (Nat × List Nat) × Bool
  | [] => ([], [], true)
  | (t, rs) :: rest =>
    if t < now then
      let out := sweepSplit now rest
      ((t, rs) :: out.1, out.2.1, out.2.2)
    else ([], (t, rs) :: rest, false)

/-- Source: `remove_reservation` over each reservation of one expiration entry. -/
def removeList : List Nat → TicketServer → Option TicketServer
  | [], s => some s
  | rid :: rest, s => (remove_reservation rid s).bind (removeList rest)

/-- Source: `remove_reservation` over every reservation of the consumed entries. -/
def removeEntries : List (Nat × List Nat) → TicketServer → Option TicketServer
  | [], s => some s
  | (_, rs) :: rest, s => (removeList rs s).bind (removeEntries rest)

/-- Source: `TicketServer::remove_expired_reservations`: walk the index while the key
is below `now`, remove every reservation found, then erase the consumed
entries.  The boolean is the end-iterator read flag of `sweepSplit`. -/
def remove_expired_reservations (now : Nat) (s : TicketServer) :
    Option (TicketServer × Bool) :=
  let split := sweepSplit now s.expiration
  (removeEntries split.1 s).map (fun s1 => ({ s1 with expiration := split.2.1 }, split.2.2))

/-- Source: `TicketServer::disable_expiration`: reads
`reserved[reservation].first.second`; `operator[]` inserts a value-initialised
record when the id is absent. -/
def disable_expiration (reservation : Nat) (s : TicketServer) : TicketServer :=
  match lookupA s.reserved reservation with
  | some r =>
    { s with expiration := expirationErase s.expiration r.expiration_time reservation }
  | none =>
    { s with
      reserved := insertSorted s.reserved reservation ⟨[], 0, 0, 0⟩,
      expiration := expirationErase s.expiration 0 reservation }

/-- Source: `TicketServer::assign_tickets`: append `ticket_count` freshly generated
codes to `purchased[reservation]`. -/
def assign_tickets (reservation ticket_count : Nat) (s : TicketServer) : TicketServer :=
  let old := (lookupA s.purchased reservation).getD []
  let out := generate_tickets ticket_count s.next_ticket
  { s with
    purchased := insertSorted s.purchased reservation (old ++ out.1),
    next_ticket := out.2 }

/-- The `BAD_REQUEST` reply: type byte 255 followed by the offending id in
network order (`TicketServer::send_bad_request`). -/
def badRequestBytes (data : Nat) : List Byte := 255 :: encU32 data

/-- Source: `TicketServer::send_tickets`: on the first redemption assign the codes and
disable expiration; reply with type 6, the id, the count, and the first
`tickets` stored codes. -/
def send_tickets (reservation tickets : Nat) (s : TicketServer) :
    TicketServer × Option (List Byte) :=
  let s1 := if lookupA s.purchased reservation = none
            then disable_expiration reservation (assign_tickets reservation tickets s)
            else s
  let tl := (lookupA s1.purchased reservation).getD []
  (s1, some (6 :: (encU32 reservation ++ encU16 tickets ++ (tl.take tickets).flatten)))

/-- Source: `TicketServer::handle_get_tickets_request`.  A wrong length throws
`std::invalid_argument`, caught in `start`: no reply, no state change. -/
def handle_get_tickets_request (dgram : List Byte) (s : TicketServer) :
    TicketServer × Option (List Byte) :=
  if dgram.length ≠ GET_TICKETS_LEN then (s, none)
  else
    let reservation := decodeU32 dgram 1
    let cookie := (dgram.drop 5).take COOKIE_LEN
    match lookupA s.reserved reservation with
    | some r =>
      if cookie = r.cookie then send_tickets reservation r.tickets s
      else (s, some (badRequestBytes reservation))
    | none => (s, some (badRequestBytes reservation))

/-- Source: `TicketServer::valid_ticket_count`:
`is_between(requested, 1, std::min(MAX_TICKETS, available))`. -/
def valid_ticket_count (requested available : Nat) : Bool :=
  decide (1 ≤ requested ∧ requested ≤ min MAX_TICKETS available)

/-- Source: `TicketServer::handle_get_reservation_request` (including
`reserve_tickets`, which only formats the `RESERVATION` reply). -/
def handle_get_reservation_request (now : Nat) (draws : List Cookie)
    (dgram : List Byte) (s : TicketServer) :
    Option (TicketServer × Option (List Byte)) :=
  if dgram.length ≠ GET_RESERVATION_LEN then some (s, none)
  else
    let event := decodeU32 dgram 1
    let tickets := decodeU16 dgram 5
    match lookupA s.events event with
    | some info =>
      if valid_ticket_count tickets info.2 then
        (create_reservation now draws event tickets s).map
          (fun (reservation, cookie, expiration_time, s1) =>
            (s1, some (4 :: (encU32 reservation ++ encU32 event ++ encU16 tickets ++
              cookie ++ encU64 expiration_time))))
      else some (s, some (badRequestBytes event))
    | none => some (s, some (badRequestBytes event))

/-- One packed record of the `EVENTS` reply: id, available count, description
length (`static_cast<desclen_t>`, i.e. mod 256) and the description bytes. -/
def eventRecord (e : Nat × List Byte × Nat) : List Byte :=
  encU32 e.1 ++ encU16 e.2.2 ++ [e.2.1.length % 256] ++ e.2.1

/-- The greedy packing loop of `TicketServer::send_events`. -/
def packEvents : List (Nat × List Byte × Nat) → Nat → List Byte
  | [], _ => []
  | e :: rest, used =>
    let portion := eventRecord e
    if portion.length + used > MAX_DATAGRAM then []
    else portion ++ packEvents rest (used + portion.length)

/-- Source: `TicketServer::send_events`: the full `EVENTS` reply. -/
def send_events (s : TicketServer) : List Byte := 2 :: packEvents s.events 1

/-- Source: `TicketServer::handle_get_events_request`. -/
def handle_get_events_request (dgram : List Byte) (s : TicketServer) :
    TicketServer × Option (List Byte) :=
  if dgram.length ≠ GET_EVENTS_LEN then (s, none) else (s, some (send_events s))

/-- Source: `TicketServer::handle_request`: dispatch on the first byte; an unknown
type throws, caught in `start`: no reply. -/
def handle_request (now : Nat) (draws : List Cookie) (dgram : List Byte)
    (s : TicketServer) : Option (TicketServer × Option (List Byte)) :=
  match dgram.head? with
  | some b =>
    if b = 1 then some (handle_get_events_request dgram s)
    else if b = 3 then handle_get_reservation_request now draws dgram s
    else if b = 5 then some (handle_get_tickets_request dgram s)
    else some (s, none)
  | none => some (s, none)

/-- One iteration of `TicketServer::start` on a received datagram: an empty
datagram is skipped before the sweeper runs; otherwise the sweeper runs and
the request is handled. -/
def dispatch (now : Nat) (draws : List Cookie) (dgram : List Byte)
    (s : TicketServer) : Option (TicketServer × Option (List Byte)) :=
  if dgram = [] then some (s, none)
  else
    match remove_expired_reservations now s with
    | none => none
    | some out => handle_request now draws dgram out.1

/-- The state right after `initialize_database` loaded the catalog `cat`:
every store empty, the ticket cursor at `"0000000"`. -/
def initState (cat : List (Nat × List Byte × Nat)) (timeout : Nat) : TicketServer :=
  { events := cat, reserved := [], expiration := [], cookies := [],
    next_ticket := [48, 48, 48, 48, 48, 48, 48], purchased := [], timeout := timeout }

/-- Well-formedness of the RNG candidate stream: `uniform_int_distribution`
only yields chars in `[MIN_COOKIE_CHAR, MAX_COOKIE_CHAR]`, and each candidate
string has `COOKIE_LEN` chars. -/
def DrawsWF (draws : List Cookie) : Prop :=
  ∀ c ∈ draws, c.length = COOKIE_LEN ∧ ∀ b ∈ c, MIN_COOKIE_CHAR ≤ b ∧ b ≤ MAX_COOKIE_CHAR

/-- States reachable by the `start` loop from a freshly initialised server. -/
inductive Reachable (cat : List (Nat × List Byte × Nat)) : TicketServer → Prop where
  | init (timeout : Nat) : Reachable cat (initState cat timeout)
  | step {s s1 : TicketServer} {r : Option (List Byte)} (now : Nat)
      (draws : List Cookie) (dgram : List Byte) (hre : Reachable cat s)
      (hdw : DrawsWF draws) (hd : dispatch now draws dgram s = some (s1, r)) :
      Reachable cat s1

/-- Total `tickets` field over all stored reservations of event `e`. -/
def sumRes (rs : List (Nat × ReservationData)) (e : Nat) : Nat :=
  (rs.map (fun p => if p.2.event = e then p.2.tickets else 0)).sum


/-- The available-ticket count of event `e` in state `s`. -/
def lookupAvail (s : TicketServer) (e : Nat) : Option Nat :=
  (lookupA s.events e).map (fun w => w.2)

/-- Well-formedness of the loaded catalog: every initial count fits in
`uint16_t` (it was parsed into one by `initialize_database`). -/
def CatWF (cat : List (Nat × List Byte × Nat)) : Prop :=
  ∀ p ∈ cat, p.2.2 < 65536

/-- The part of the state invariant that survives each single reservation
removal inside the sweeper (everything except the soundness of the expiration
index, which is only restored when the consumed index entries are erased at
the end of the sweep). -/
structure CoreInv (cat : List (Nat × List Byte × Nat)) (s : TicketServer) : Prop where
  conservation : ∀ e d i, lookupA cat e = some (d, i) →
    ∃ a, lookupA s.events e = some (d, a) ∧ a + sumRes s.reserved e = i
  eventsSub : ∀ e v, lookupA s.events e = some v → ∃ w, lookupA cat e = some w
  resSorted : (s.reserved.map Prod.fst).Pairwise (· < ·)
  resEvents : ∀ p ∈ s.reserved, ∃ w, lookupA cat p.2.event = some w
  expSorted : (s.expiration.map Prod.fst).Pairwise (· < ·)
  indexNodup : (s.expiration.map Prod.snd).flatten.Nodup
  indexComplete : ∀ p ∈ s.reserved, lookupA s.purchased p.1 = none →
    ∃ rs, lookupA s.expiration p.2.expiration_time = some rs ∧ p.1 ∈ rs
  indexUnredeemed : ∀ q ∈ s.expiration, ∀ rid ∈ q.2, lookupA s.purchased rid = none
  cookiesNodup : s.cookies.Nodup
  resCookies : ∀ p ∈ s.reserved, p.2.cookie ∈ s.cookies
  resCookiesNodup : (s.reserved.map (fun p => p.2.cookie)).Nodup
  purchasedSub : ∀ rid v, lookupA s.purchased rid = some v →
    ∃ r, lookupA s.reserved rid = some r

/-- The full state invariant: `CoreInv` plus soundness of the expiration
index (every indexed reservation id is a key of `reserved` — the fact the
unchecked dereference inside `remove_reservation` relies on). -/
structure Inv (cat : List (Nat × List Byte × Nat)) (s : TicketServer) extends
    CoreInv cat s : Prop where
  indexSound : ∀ q ∈ s.expiration, ∀ rid ∈ q.2, ∃ r, lookupA s.reserved rid = some r

/-- Sum of `ticket_count` over the *unredeemed* stored reservations of event
`e` — the quantity the spec's conservation law is phrased over. -/
def sumUnredeemed (s : TicketServer) (e : Nat) : Nat :=
  (s.reserved.map (fun p =>
    if p.2.event = e ∧ lookupA s.purchased p.1 = none then p.2.tickets else 0)).sum

/-- The semantic rejection condition of `GET_RESERVATION`: unknown event,
zero tickets, more than `MAX_TICKETS`, or more than currently available. -/
def reservationRejected (s : TicketServer) (event t : Nat) : Bool :=
  match lookupA s.events event with
  | none => true
  | some info => decide (t = 0 ∨ MAX_TICKETS < t ∨ info.2 < t)

/-- A datagram the dispatcher drops silently: empty, unknown first byte, or a
known type with the wrong length. -/
def Malformed (dgram : List Byte) : Bool :=
  match dgram.head? with
  | none => true
  | some b =>
    decide ((b ≠ 1 ∧ b ≠ 3 ∧ b ≠ 5) ∨
      (b = 1 ∧ dgram.length ≠ GET_EVENTS_LEN) ∨
      (b = 3 ∧ dgram.length ≠ GET_RESERVATION_LEN) ∨
      (b = 5 ∧ dgram.length ≠ GET_TICKETS_LEN))

/-- A semantic failure: a well-formed `GET_RESERVATION` naming an unknown
event or an unreservable quantity, or a well-formed `GET_TICKETS` naming an
unknown reservation or carrying a mismatched cookie. -/
def SemanticFailure (dgram : List Byte) (s : TicketServer) : Bool :=
  (decide (dgram.head? = some 3 ∧ dgram.length = GET_RESERVATION_LEN) &&
    (match lookupA s.events (decodeU32 dgram 1) with
     | none => true
     | some info => ! valid_ticket_count (decodeU16 dgram 5) info.2)) ||
  (decide (dgram.head? = some 5 ∧ dgram.length = GET_TICKETS_LEN) &&
    (match lookupA s.reserved (decodeU32 dgram 1) with
     | none => true
     | some r => decide ((dgram.drop 5).take COOKIE_LEN ≠ r.cookie)))

/-- The two-event catalog of the spec's end-to-end scenarios:
(id 0, "Concert", 10 tickets) and (id 1, "Play", 2 tickets). -/
def exCat : List (Nat × List Byte × Nat) :=
  [(0, [67, 111, 110, 99, 101, 114, 116], 10), (1, [80, 108, 97, 121], 2)]

/-- A fixed well-formed cookie candidate (48 bytes, all `'!'`). -/
def exCookie : Cookie := List.replicate 48 33

/-- The demo server right after startup with `timeout = 5`. -/
def exS0 : TicketServer := initState exCat 5

/-- Source: `GET_RESERVATION` datagram: reserve 3 tickets for event 0. -/
def exResDgram : List Byte := [3, 0, 0, 0, 0, 0, 3]

/-- Source: `GET_TICKETS` datagram: redeem reservation 1000000 with `exCookie`. -/
def exTickDgram : List Byte := 5 :: (encU32 MIN_RESERVATION_ID ++ exCookie)

/-- The demo server after the reservation request arrived at time 100. -/
def exS1 : TicketServer := ((dispatch 100 [exCookie] exResDgram exS0).getD (exS0, none)).1

/-- The reply to the reservation request. -/
def exRep1 : Option (List Byte) := ((dispatch 100 [exCookie] exResDgram exS0).getD (exS0, none)).2

/-- The demo server after the redemption request arrived at time 101. -/
def exS2 : TicketServer := ((dispatch 101 [] exTickDgram exS1).getD (exS1, none)).1

/-- The reply to the redemption request. -/
def exRep2 : Option (List Byte) := ((dispatch 101 [] exTickDgram exS1).getD (exS1, none)).2

/-! ## Association-list lemmas -/

theorem lookupA_eq_none {α : Type} (l : List (Nat × α)) (k : Nat) :
    lookupA l k = none ↔ k ∉ l.map Prod.fst := by
  induction l with
  | nil => simp [lookupA]
  | cons p rest ih =>
    obtain ⟨k1, v1⟩ := p
    by_cases h : k = k1
    · subst h; simp [lookupA]
    · simp [lookupA, h, ih]

theorem lookupA_mem {α : Type} {l : List (Nat × α)} {k : Nat} {v : α}
    (h : lookupA l k = some v) : (k, v) ∈ l := by
  induction l with
  | nil => simp [lookupA] at h
  | cons p rest ih =>
    obtain ⟨k1, v1⟩ := p
    by_cases hk : k = k1
    · subst hk
      simp [lookupA] at h
      subst h; exact List.mem_cons_self _ _
    · simp only [lookupA, if_neg hk] at h
      exact List.mem_cons_of_mem _ (ih h)

theorem lookupA_of_mem {α : Type} {l : List (Nat × α)}
    (hs : (l.map Prod.fst).Pairwise (· < ·)) {k : Nat} {v : α}
    (h : (k, v) ∈ l) : lookupA l k = some v := by
  induction l with
  | nil => simp at h
  | cons p rest ih =>
    obtain ⟨k1, v1⟩ := p
    simp only [List.map_cons, List.pairwise_cons] at hs
    rcases List.mem_cons.mp h with heq | hmem
    · cases heq; simp [lookupA]
    · have hklt : k1 < k := hs.1 k (List.mem_map.mpr ⟨(k, v), hmem, rfl⟩)
      have hk : k ≠ k1 := fun he => by omega
      simp only [lookupA, if_neg hk]
      exact ih hs.2 hmem

theorem eraseKey_sublist {α : Type} (l : List (Nat × α)) (k : Nat) :
    List.Sublist (eraseKey l k) l := by
  induction l with
  | nil => simp [eraseKey]
  | cons p rest ih =>
    obtain ⟨k1, v1⟩ := p
    by_cases h : k = k1
    · simp [eraseKey, h]
    · simpa [eraseKey, h] using ih.cons₂ (k1, v1)

theorem eraseKey_of_not_mem {α : Type} {l : List (Nat × α)} {k : Nat}
    (h : k ∉ l.map Prod.fst) : eraseKey l k = l := by
  induction l with
  | nil => rfl
  | cons p rest ih =>
    obtain ⟨k1, v1⟩ := p
    simp only [List.map_cons, List.mem_cons] at h
    push_neg at h
    simp [eraseKey, h.1, ih h.2]

theorem lookupA_eraseKey_ne {α : Type} {l : List (Nat × α)} {k k' : Nat}
    (h : k' ≠ k) : lookupA (eraseKey l k) k' = lookupA l k' := by
  induction l with
  | nil => rfl
  | cons p rest ih =>
    obtain ⟨k1, v1⟩ := p
    by_cases hk : k = k1
    · subst hk; simp [eraseKey, lookupA, h]
    · by_cases hk' : k' = k1
      · simp [eraseKey, hk, lookupA, hk']
      · simp [eraseKey, hk, lookupA, hk', ih]

theorem lookupA_eraseKey_self {α : Type} {l : List (Nat × α)} {k : Nat}
    (hs : (l.map Prod.fst).Pairwise (· < ·)) : lookupA (eraseKey l k) k = none := by
  induction l with
  | nil => rfl
  | cons p rest ih =>
    obtain ⟨k1, v1⟩ := p
    simp only [List.map_cons, List.pairwise_cons] at hs
    by_cases hk : k = k1
    · subst hk
      have : k ∉ rest.map Prod.fst := fun hm => by
        have := hs.1 k hm; omega
      simp [eraseKey, (lookupA_eq_none rest k).mpr this]
    · simp [eraseKey, hk, lookupA, hk, ih hs.2]

theorem eraseKey_perm {α : Type} {l : List (Nat × α)} {k : Nat} {v : α}
    (h : lookupA l k = some v) : l.Perm ((k, v) :: eraseKey l k) := by
  induction l with
  | nil => simp [lookupA] at h
  | cons p rest ih =>
    obtain ⟨k1, v1⟩ := p
    by_cases hk : k = k1
    · subst hk
      simp [lookupA] at h
      subst h; simp [eraseKey]
    · simp only [lookupA, if_neg hk] at h
      simp only [eraseKey, if_neg hk]
      exact ((ih h).cons _).trans (List.Perm.swap _ _ _)

theorem lookupA_insertSorted_self {α : Type} (l : List (Nat × α)) (k : Nat) (v : α) :
    lookupA (insertSorted l k v) k = some v := by
  induction l with
  | nil => simp [insertSorted, lookupA]
  | cons p rest ih =>
    obtain ⟨k1, v1⟩ := p
    by_cases hlt : k < k1
    · simp [insertSorted, hlt, lookupA]
    · by_cases heq : k = k1
      · simp [insertSorted, hlt, heq, lookupA]
      · simp [insertSorted, hlt, heq, lookupA, ih]

theorem lookupA_insertSorted_ne {α : Type} {l : List (Nat × α)} {k k' : Nat} {v : α}
    (h : k' ≠ k) : lookupA (insertSorted l k v) k' = lookupA l k' := by
  induction l with
  | nil => simp [insertSorted, lookupA, h]
  | cons p rest ih =>
    obtain ⟨k1, v1⟩ := p
    by_cases hlt : k < k1
    · simp [insertSorted, hlt, lookupA, h]
    · by_cases heq : k = k1
      · subst heq; simp [insertSorted, hlt, lookupA, h]
      · by_cases hk1 : k' = k1
        · simp [insertSorted, hlt, heq, lookupA, hk1]
        · simp [insertSorted, hlt, heq, lookupA, hk1, ih]

theorem keys_insertSorted_sub {α : Type} {l : List (Nat × α)} {k a : Nat} {v : α}
    (h : a ∈ (insertSorted l k v).map Prod.fst) : a = k ∨ a ∈ l.map Prod.fst := by
  induction l with
  | nil => simp [insertSorted] at h; simp [h]
  | cons p rest ih =>
    obtain ⟨k1, v1⟩ := p
    by_cases hlt : k < k1
    · simp only [insertSorted, if_pos hlt, List.map_cons, List.mem_cons] at h
      rcases h with h | h | h
      · exact Or.inl h
      · exact Or.inr (by simp [h])
      · exact Or.inr (by simp [h])
    · by_cases heq : k = k1
      · simp only [insertSorted, if_neg hlt, if_pos heq, List.map_cons, List.mem_cons] at h
        rcases h with h | h
        · exact Or.inl h
        · exact Or.inr (by simp [h])
      · simp only [insertSorted, if_neg hlt, if_neg heq, List.map_cons, List.mem_cons] at h
        rcases h with h | h
        · exact Or.inr (by simp [h])
        · rcases ih h with h | h
          · exact Or.inl h
          · exact Or.inr (by simp [h])

theorem insertSorted_sorted {α : Type} {l : List (Nat × α)} (k : Nat) (v : α)
    (hs : (l.map Prod.fst).Pairwise (· < ·)) :
    ((insertSorted l k v).map Prod.fst).Pairwise (· < ·) := by
  induction l with
  | nil => simp [insertSorted]
  | cons p rest ih =>
    obtain ⟨k1, v1⟩ := p
    simp only [List.map_cons, List.pairwise_cons] at hs
    by_cases hlt : k < k1
    · simp only [insertSorted, if_pos hlt, List.map_cons, List.pairwise_cons]
      refine ⟨?_, hs.1, hs.2⟩
      intro a ha
      rcases List.mem_cons.mp ha with h | h
      · omega
      · have := hs.1 a h; omega
    · by_cases heq : k = k1
      · subst heq
        have hrw : insertSorted ((k, v1) :: rest) k v = (k, v) :: rest := by
          simp [insertSorted, hlt]
        rw [hrw]
        simp only [List.map_cons, List.pairwise_cons]
        exact ⟨hs.1, hs.2⟩
      · simp only [insertSorted, if_neg hlt, if_neg heq, List.map_cons, List.pairwise_cons]
        refine ⟨?_, ih hs.2⟩
        intro a ha
        rcases keys_insertSorted_sub ha with h | h
        · omega
        · exact hs.1 a h

theorem insertSorted_perm_eraseKey {α : Type} {l : List (Nat × α)} (k : Nat) (v : α)
    (hs : (l.map Prod.fst).Pairwise (· < ·)) :
    (insertSorted l k v).Perm ((k, v) :: eraseKey l k) := by
  induction l with
  | nil => simp [insertSorted, eraseKey]
  | cons p rest ih =>
    obtain ⟨k1, v1⟩ := p
    simp only [List.map_cons, List.pairwise_cons] at hs
    by_cases hlt : k < k1
    · have hk : k ≠ k1 := by omega
      have hnm : k ∉ rest.map Prod.fst := fun hm => by
        have := hs.1 k hm; omega
      simp [insertSorted, hlt, eraseKey, hk, eraseKey_of_not_mem hnm]
    · by_cases heq : k = k1
      · subst heq; simp [insertSorted, hlt, eraseKey]
      · simp only [insertSorted, if_neg hlt, if_neg heq, eraseKey, if_neg heq]
        exact ((ih hs.2).cons _).trans (List.Perm.swap _ _ _)

theorem insertSorted_perm_fresh {α : Type} {l : List (Nat × α)} (k : Nat) (v : α)
    (hs : (l.map Prod.fst).Pairwise (· < ·)) (hf : lookupA l k = none) :
    (insertSorted l k v).Perm ((k, v) :: l) := by
  have := insertSorted_perm_eraseKey k v hs
  rwa [eraseKey_of_not_mem ((lookupA_eq_none l k).mp hf)] at this

theorem sublist_flatten_mono {α : Type} {l1 l2 : List (List α)}
    (h : List.Sublist l1 l2) : List.Sublist l1.flatten l2.flatten := by
  induction h with
  | slnil => simp
  | cons a _ ih => exact ih.trans (List.sublist_append_right _ _)
  | cons₂ a _ ih => simpa using List.Sublist.append (List.Sublist.refl a) ih

/-! ## Lemmas on the event-catalog updates -/

theorem creditTickets_lookup_self {es : List (Nat × List Byte × Nat)} {e : Nat}
    {d : List Byte} {a : Nat} (h : lookupA es e = some (d, a)) (t : Nat) :
    lookupA (creditTickets es e t) e = some (d, (a + t) % 65536) := by
  induction es with
  | nil => simp [lookupA] at h
  | cons p rest ih =>
    obtain ⟨k, dd, aa⟩ := p
    by_cases hk : e = k
    · subst hk
      simp [lookupA] at h
      simp [creditTickets, lookupA, h.1, h.2]
    · have hk2 : k ≠ e := fun hh => hk hh.symm
      simp only [lookupA, if_neg hk] at h
      simp only [creditTickets, if_neg hk2, lookupA, if_neg hk]
      exact ih h

theorem creditTickets_lookup_ne {es : List (Nat × List Byte × Nat)} {e e' : Nat}
    (h : e' ≠ e) (t : Nat) : lookupA (creditTickets es e t) e' = lookupA es e' := by
  induction es with
  | nil => simp [creditTickets, lookupA, h]
  | cons p rest ih =>
    obtain ⟨k, dd, aa⟩ := p
    by_cases hk : k = e
    · subst hk
      have h2 : e' ≠ k := h
      simp [creditTickets, lookupA, h2]
    · by_cases h2 : e' = k
      · simp [creditTickets, hk, lookupA, h2]
      · simp [creditTickets, hk, lookupA, h2, ih]

theorem creditTickets_keys {es : List (Nat × List Byte × Nat)} {e : Nat}
    (h : lookupA es e ≠ none) (t : Nat) :
    (creditTickets es e t).map Prod.fst = es.map Prod.fst := by
  induction es with
  | nil => simp [lookupA] at h
  | cons p rest ih =>
    obtain ⟨k, dd, aa⟩ := p
    by_cases hk : k = e
    · simp [creditTickets, hk]
    · have hk2 : e ≠ k := fun hh => hk hh.symm
      simp only [lookupA, if_neg hk2] at h
      simp [creditTickets, hk, ih h]

theorem debitTickets_lookup_self {es : List (Nat × List Byte × Nat)} {e : Nat}
    {d : List Byte} {a : Nat} (h : lookupA es e = some (d, a)) (t : Nat) :
    lookupA (debitTickets es e t) e = some (d, (a + 65536 - t) % 65536) := by
  induction es with
  | nil => simp [lookupA] at h
  | cons p rest ih =>
    obtain ⟨k, dd, aa⟩ := p
    by_cases hk : e = k
    · subst hk
      simp [lookupA] at h
      simp [debitTickets, lookupA, h.1, h.2]
    · have hk2 : k ≠ e := fun hh => hk hh.symm
      simp only [lookupA, if_neg hk] at h
      simp only [debitTickets, if_neg hk2, lookupA, if_neg hk]
      exact ih h

theorem debitTickets_lookup_ne {es : List (Nat × List Byte × Nat)} {e e' : Nat}
    (h : e' ≠ e) (t : Nat) : lookupA (debitTickets es e t) e' = lookupA es e' := by
  induction es with
  | nil => simp [debitTickets, lookupA, h]
  | cons p rest ih =>
    obtain ⟨k, dd, aa⟩ := p
    by_cases hk : k = e
    · subst hk
      have h2 : e' ≠ k := h
      simp [debitTickets, lookupA, h2]
    · by_cases h2 : e' = k
      · simp [debitTickets, hk, lookupA, h2]
      · simp [debitTickets, hk, lookupA, h2, ih]

theorem debitTickets_keys {es : List (Nat × List Byte × Nat)} {e : Nat}
    (h : lookupA es e ≠ none) (t : Nat) :
    (debitTickets es e t).map Prod.fst = es.map Prod.fst := by
  induction es with
  | nil => simp [lookupA] at h
  | cons p rest ih =>
    obtain ⟨k, dd, aa⟩ := p
    by_cases hk : k = e
    · simp [debitTickets, hk]
    · have hk2 : e ≠ k := fun hh => hk hh.symm
      simp only [lookupA, if_neg hk2] at h
      simp [debitTickets, hk, ih h]

/-! ## The per-event ticket sum held by stored reservations -/

theorem sumRes_perm {rs1 rs2 : List (Nat × ReservationData)} (h : rs1.Perm rs2)
    (e : Nat) : sumRes rs1 e = sumRes rs2 e :=
  (h.map _).sum_eq

theorem sumRes_cons (p : Nat × ReservationData) (rs : List (Nat × ReservationData))
    (e : Nat) :
    sumRes (p :: rs) e = (if p.2.event = e then p.2.tickets else 0) + sumRes rs e := by
  simp [sumRes]

theorem le_sumRes {rs : List (Nat × ReservationData)} {k : Nat} {r : ReservationData}
    {e : Nat} (hmem : (k, r) ∈ rs) (he : r.event = e) : r.tickets ≤ sumRes rs e := by
  apply List.single_le_sum (fun x _ => Nat.zero_le x)
  exact List.mem_map.mpr ⟨(k, r), hmem, by simp [he]⟩

/-! ## Facts about the identifier generators -/

theorem getLastD_max {k : Nat} {ks : List Nat} (hs : (k :: ks).Pairwise (· < ·)) :
    ∀ x ∈ k :: ks, x ≤ ks.getLastD k := by
  induction ks generalizing k with
  | nil => intro x hx; simp at hx; simp [hx]
  | cons b rest ih =>
    intro x hx
    have hkb : k < b := by
      have := (List.pairwise_cons.mp hs).1
      exact this b (List.mem_cons_self _ _)
    have htail := (List.pairwise_cons.mp hs).2
    rw [List.getLastD_cons]
    rcases List.mem_cons.mp hx with hx | hx
    · subst hx
      have hb := ih htail b (List.mem_cons_self _ _)
      omega
    · exact ih htail x hx

theorem adjacent_gap_mem {l : List Nat} {a : Nat} (h : adjacent_gap l = some a) :
    a ∈ l := by
  induction l with
  | nil => simp [adjacent_gap] at h
  | cons x rest ih =>
    match rest, ih with
    | [], _ => simp [adjacent_gap] at h
    | y :: rest2, ih =>
      by_cases hxy : x + 1 ≠ y
      · simp only [adjacent_gap, if_pos hxy, Option.some.injEq] at h
        simp [h.symm]
      · simp only [adjacent_gap, if_neg hxy] at h
        exact List.mem_cons_of_mem _ (ih h)

theorem adjacent_gap_succ_not_mem {l : List Nat} (hs : l.Pairwise (· < ·)) {a : Nat}
    (h : adjacent_gap l = some a) : a + 1 ∉ l := by
  induction l with
  | nil => simp
  | cons x rest ih =>
    match rest, ih with
    | [], _ => simp [adjacent_gap] at h
    | y :: rest2, ih =>
      have hx := (List.pairwise_cons.mp hs).1
      have htail := (List.pairwise_cons.mp hs).2
      have hy := (List.pairwise_cons.mp htail).1
      by_cases hxy : x + 1 ≠ y
      · simp only [adjacent_gap, if_pos hxy, Option.some.injEq] at h
        subst h
        have hxlty : x < y := hx y (List.mem_cons_self _ _)
        intro hmem
        rcases List.mem_cons.mp hmem with hc | hc
        · omega
        · rcases List.mem_cons.mp hc with hc | hc
          · omega
          · have := hy (x + 1) hc; omega
      · simp only [adjacent_gap, if_neg hxy] at h
        have hmem := adjacent_gap_mem h
        have hagt : x < a := hx a hmem
        intro hcon
        rcases List.mem_cons.mp hcon with hc | hc
        · omega
        · exact ih htail h hc

theorem generate_reservation_id_fresh {keys : List Nat} {rid : Nat}
    (hs : keys.Pairwise (· < ·)) (h : generate_reservation_id keys = some rid) :
    rid ∉ keys := by
  match keys with
  | [] => simp
  | k :: ks =>
    simp only [generate_reservation_id] at h
    by_cases h1 : ks.getLastD k ≤ UINT32_MAX - 1
    · rw [if_pos h1] at h
      simp only [Option.some.injEq] at h
      subst h
      intro hmem
      have := getLastD_max hs _ hmem
      omega
    · rw [if_neg h1] at h
      by_cases h2 : 1 ≤ k
      · rw [if_pos h2] at h
        simp only [Option.some.injEq] at h
        subst h
        intro hmem
        have hx := (List.pairwise_cons.mp hs).1
        rcases List.mem_cons.mp hmem with hc | hc
        · omega
        · have := hx _ hc; omega
      · rw [if_neg h2] at h
        simp only [Option.map_eq_some'] at h
        obtain ⟨a, ha, hrid⟩ := h
        subst hrid
        exact adjacent_gap_succ_not_mem hs ha

theorem generate_cookie_not_mem {cookies draws : List Cookie} {c : Cookie}
    (h : generate_cookie cookies draws = some c) : c ∉ cookies := by
  have := List.find?_some h
  simpa using this

theorem generate_cookie_mem_draws {cookies draws : List Cookie} {c : Cookie}
    (h : generate_cookie cookies draws = some c) : c ∈ draws :=
  List.mem_of_find?_eq_some h

/-! ## Facts about the sweeper walk -/

theorem sweepSplit_append (now : Nat) (l : List (Nat × List Nat)) :
    (sweepSplit now l).1 ++ (sweepSplit now l).2.1 = l := by
  induction l with
  | nil => simp [sweepSplit]
  | cons q rest ih =>
    obtain ⟨t, rs⟩ := q
    by_cases h : t < now
    · simp [sweepSplit, h, ih]
    · simp [sweepSplit, h]

theorem sweepSplit_consumed_lt (now : Nat) (l : List (Nat × List Nat)) :
    ∀ q ∈ (sweepSplit now l).1, q.1 < now := by
  induction l with
  | nil => simp [sweepSplit]
  | cons q rest ih =>
    obtain ⟨t, rs⟩ := q
    by_cases h : t < now
    · simp only [sweepSplit, if_pos h]
      intro q hq
      rcases List.mem_cons.mp hq with hc | hc
      · subst hc; exact h
      · exact ih q hc
    · simp [sweepSplit, h]

theorem sweepSplit_flag_iff (now : Nat) (l : List (Nat × List Nat)) :
    (sweepSplit now l).2.2 = true ↔ ∀ q ∈ l, q.1 < now := by
  induction l with
  | nil => simp [sweepSplit]
  | cons q rest ih =>
    obtain ⟨t, rs⟩ := q
    by_cases h : t < now
    · simp [sweepSplit, h, ih]
    · simp [sweepSplit, h]

/-! ## Facts about the expiration-index updates -/

theorem mem_flatten_assoc {idx : List (Nat × List Nat)} {t : Nat} {rs : List Nat}
    (hq : (t, rs) ∈ idx) {x : Nat} (hx : x ∈ rs) : x ∈ (idx.map Prod.snd).flatten :=
  List.mem_flatten.mpr ⟨rs, List.mem_map.mpr ⟨(t, rs), hq, rfl⟩, hx⟩

theorem expirationInsert_flatten_perm {idx : List (Nat × List Nat)} {t rid : Nat}
    (hs : (idx.map Prod.fst).Pairwise (· < ·))
    (hfresh : rid ∉ (idx.map Prod.snd).flatten) :
    ((expirationInsert idx t rid).map Prod.snd).flatten.Perm
      (rid :: (idx.map Prod.snd).flatten) := by
  cases h : lookupA idx t with
  | none =>
    have hval : expirationInsert idx t rid = insertSorted idx t [rid] := by
      simp [expirationInsert, h]
    rw [hval]
    have hp := insertSorted_perm_fresh t [rid] hs h
    simpa using (hp.map Prod.snd).flatten
  | some rs0 =>
    have hmem0 := lookupA_mem h
    have hnin : rid ∉ rs0 := fun hx => hfresh (mem_flatten_assoc hmem0 hx)
    have hval : expirationInsert idx t rid = insertSorted idx t (rs0 ++ [rid]) := by
      simp [expirationInsert, h, hnin]
    rw [hval]
    have hp := insertSorted_perm_eraseKey t (rs0 ++ [rid]) hs
    have hold := eraseKey_perm h
    have h1 : ((insertSorted idx t (rs0 ++ [rid])).map Prod.snd).flatten.Perm
        ((rs0 ++ [rid]) ++ ((eraseKey idx t).map Prod.snd).flatten) := by
      simpa using (hp.map Prod.snd).flatten
    have h2 : (idx.map Prod.snd).flatten.Perm
        (rs0 ++ ((eraseKey idx t).map Prod.snd).flatten) := by
      simpa using (hold.map Prod.snd).flatten
    refine h1.trans ?_
    have h3 : (rs0 ++ [rid]) ++ ((eraseKey idx t).map Prod.snd).flatten
        = rs0 ++ rid :: ((eraseKey idx t).map Prod.snd).flatten := by simp
    rw [h3]
    exact List.perm_middle.trans (List.Perm.cons rid h2.symm)

theorem expirationErase_flatten_spec {idx : List (Nat × List Nat)} (t rid : Nat)
    (hs : (idx.map Prod.fst).Pairwise (· < ·)) :
    ∃ fl0 : List Nat,
      (idx.map Prod.snd).flatten.Perm (((lookupA idx t).getD []) ++ fl0) ∧
      ((expirationErase idx t rid).map Prod.snd).flatten.Perm
        ((((lookupA idx t).getD []).erase rid) ++ fl0) := by
  cases h : lookupA idx t with
  | none =>
    refine ⟨(idx.map Prod.snd).flatten, by simp, ?_⟩
    have hval : expirationErase idx t rid = insertSorted idx t [] := by
      simp [expirationErase, h]
    rw [hval]
    have hp := insertSorted_perm_fresh t ([] : List Nat) hs h
    simpa using (hp.map Prod.snd).flatten
  | some rs0 =>
    refine ⟨((eraseKey idx t).map Prod.snd).flatten, ?_, ?_⟩
    · simpa using ((eraseKey_perm h).map Prod.snd).flatten
    · have hval : expirationErase idx t rid = insertSorted idx t (rs0.erase rid) := by
        simp [expirationErase, h]
      rw [hval]
      have hp := insertSorted_perm_eraseKey t (rs0.erase rid) hs
      simpa using (hp.map Prod.snd).flatten

/-! ## The state invariant -/

/-! ## Effect of a single reservation removal -/

theorem remove_reservation_spec {cat : List (Nat × List Byte × Nat)}
    {s : TicketServer} {rid : Nat} {r : ReservationData}
    (hc : CoreInv cat s) (hcat : CatWF cat)
    (hr : lookupA s.reserved rid = some r)
    (hun : lookupA s.purchased rid = none) :
    ∃ s1, remove_reservation rid s = some s1 ∧ CoreInv cat s1 ∧
      s1.expiration = s.expiration ∧ s1.purchased = s.purchased ∧
      s1.timeout = s.timeout ∧ s1.next_ticket = s.next_ticket ∧
      s1.reserved = eraseKey s.reserved rid ∧
      s1.cookies = s.cookies.erase r.cookie ∧
      (∀ e a, lookupAvail s e = some a → ∃ a1, lookupAvail s1 e = some a1 ∧ a ≤ a1) ∧
      (∀ a, lookupAvail s r.event = some a → lookupAvail s1 r.event = some (a + r.tickets)) := by
  have hmem : (rid, r) ∈ s.reserved := lookupA_mem hr
  obtain ⟨⟨d0, i0⟩, hcatl0⟩ := hc.resEvents (rid, r) hmem
  have hcatl : lookupA cat r.event = some (d0, i0) := hcatl0
  obtain ⟨a0, ha00, hsum00⟩ := hc.conservation _ _ _ hcatl0
  have ha0 : lookupA s.events r.event = some (d0, a0) := ha00
  have hsum0 : a0 + sumRes s.reserved r.event = i0 := hsum00
  have hi0 : i0 < 65536 := hcat _ (lookupA_mem hcatl)
  have htle : r.tickets ≤ sumRes s.reserved r.event := le_sumRes hmem rfl
  have hbound : a0 + r.tickets < 65536 := by omega
  have hperm : s.reserved.Perm ((rid, r) :: eraseKey s.reserved rid) := eraseKey_perm hr
  have hsum_split : ∀ e, sumRes s.reserved e =
      (if r.event = e then r.tickets else 0) + sumRes (eraseKey s.reserved rid) e := by
    intro e
    rw [sumRes_perm hperm e, sumRes_cons]
  refine ⟨{ s with
      events := creditTickets s.events r.event r.tickets,
      reserved := eraseKey s.reserved rid,
      cookies := s.cookies.erase r.cookie }, ?_, ?_, rfl, rfl, rfl, rfl, rfl, rfl, ?_, ?_⟩
  · simp [remove_reservation, hr]
  · constructor
    · -- conservation
      intro e d i hl
      by_cases he : e = r.event
      · subst he
        rw [hcatl] at hl
        simp only [Option.some.injEq, Prod.mk.injEq] at hl
        obtain ⟨hd, hi⟩ := hl
        subst hd; subst hi
        refine ⟨a0 + r.tickets, ?_, ?_⟩
        · have hcs := creditTickets_lookup_self ha0 r.tickets
          rw [Nat.mod_eq_of_lt (by omega)] at hcs
          exact hcs
        · have hs2 := hsum_split r.event
          simp at hs2
          show a0 + r.tickets + sumRes (eraseKey s.reserved rid) r.event = i0
          omega
      · obtain ⟨a, ha, hsum⟩ := hc.conservation e d i hl
        refine ⟨a, ?_, ?_⟩
        · rw [creditTickets_lookup_ne he]; exact ha
        · have hs2 := hsum_split e
          rw [if_neg (fun hh => he hh.symm)] at hs2
          show a + sumRes (eraseKey s.reserved rid) e = i
          omega
    · -- eventsSub
      intro e v hl
      have hk : (creditTickets s.events r.event r.tickets).map Prod.fst
          = s.events.map Prod.fst := creditTickets_keys (by simp [ha0]) _
      have hmemk : e ∈ s.events.map Prod.fst := by
        have h1 : lookupA (creditTickets s.events r.event r.tickets) e ≠ none := by
          rw [hl]; exact fun hh => by cases hh
        have h2 := lookupA_eq_none (creditTickets s.events r.event r.tickets) e
        rw [hk] at h2
        by_contra hcon
        exact h1 (h2.mpr hcon)
      obtain ⟨v', hv'⟩ := Option.ne_none_iff_exists'.mp
        (fun hh => (lookupA_eq_none s.events e).mp hh hmemk)
      exact hc.eventsSub e v' hv'
    · -- resSorted
      exact hc.resSorted.sublist ((eraseKey_sublist _ _).map _)
    · -- resEvents
      intro p hp
      exact hc.resEvents p ((eraseKey_sublist _ _).subset hp)
    · -- expSorted
      exact hc.expSorted
    · -- indexNodup
      exact hc.indexNodup
    · -- indexComplete
      intro p hp hpn
      exact hc.indexComplete p ((eraseKey_sublist _ _).subset hp) hpn
    · -- indexUnredeemed
      exact hc.indexUnredeemed
    · -- cookiesNodup
      exact hc.cookiesNodup.erase _
    · -- resCookies
      intro p hp
      have hpm := (eraseKey_sublist s.reserved rid).subset hp
      have hcnd : (r.cookie :: (eraseKey s.reserved rid).map (fun p => p.2.cookie)).Nodup := by
        have := hc.resCookiesNodup.perm (hperm.map (fun p => p.2.cookie))
        simpa using this
      have hne : p.2.cookie ≠ r.cookie := by
        intro he
        have hmm : p.2.cookie ∈ (eraseKey s.reserved rid).map (fun p => p.2.cookie) :=
          List.mem_map.mpr ⟨p, hp, rfl⟩
        rw [he] at hmm
        exact (List.nodup_cons.mp hcnd).1 hmm
      exact (List.mem_erase_of_ne hne).mpr (hc.resCookies p hpm)
    · -- resCookiesNodup
      have hcnd : (r.cookie :: (eraseKey s.reserved rid).map (fun p => p.2.cookie)).Nodup := by
        have := hc.resCookiesNodup.perm (hperm.map (fun p => p.2.cookie))
        simpa using this
      exact (List.nodup_cons.mp hcnd).2
    · -- purchasedSub
      intro rid' v hl
      obtain ⟨r', hr'⟩ := hc.purchasedSub rid' v hl
      have hne : rid' ≠ rid := by
        intro he; rw [he, hun] at hl; cases hl
      exact ⟨r', by rw [lookupA_eraseKey_ne hne]; exact hr'⟩
  · -- avail monotone
    intro e a hl
    simp only [lookupAvail, Option.map_eq_some'] at hl
    obtain ⟨⟨d, aa⟩, hla, hav⟩ := hl
    simp only at hav
    subst hav
    by_cases he : e = r.event
    · subst he
      rw [ha0] at hla
      simp only [Option.some.injEq, Prod.mk.injEq] at hla
      obtain ⟨hd, haa⟩ := hla
      subst haa
      refine ⟨a0 + r.tickets, ?_, by omega⟩
      have hcs := creditTickets_lookup_self ha0 r.tickets
      rw [Nat.mod_eq_of_lt (by omega)] at hcs
      simp [lookupAvail, hcs]
    · refine ⟨aa, ?_, le_refl aa⟩
      simp [lookupAvail, creditTickets_lookup_ne he, hla]
  · -- avail credited exactly for the removed reservation's event
    intro a hl
    simp only [lookupAvail, Option.map_eq_some'] at hl
    obtain ⟨⟨d, aa⟩, hla, hav⟩ := hl
    simp only at hav
    subst hav
    rw [ha0] at hla
    simp only [Option.some.injEq, Prod.mk.injEq] at hla
    obtain ⟨hd, haa⟩ := hla
    subst haa
    have hcs := creditTickets_lookup_self ha0 r.tickets
    rw [Nat.mod_eq_of_lt (by omega)] at hcs
    simp [lookupAvail, hcs]

theorem removeList_spec {cat : List (Nat × List Byte × Nat)} (hcat : CatWF cat) :
    ∀ (rids : List Nat) (s : TicketServer), CoreInv cat s →
    rids.Nodup →
    (∀ rid ∈ rids, (∃ r, lookupA s.reserved rid = some r) ∧
      lookupA s.purchased rid = none) →
    ∃ s1, removeList rids s = some s1 ∧ CoreInv cat s1 ∧
      s1.expiration = s.expiration ∧ s1.purchased = s.purchased ∧
      s1.timeout = s.timeout ∧ s1.next_ticket = s.next_ticket ∧
      (∀ rid ∈ rids, lookupA s1.reserved rid = none) ∧
      (∀ rid, rid ∉ rids → lookupA s1.reserved rid = lookupA s.reserved rid) ∧
      (∀ c, c ∈ s1.cookies → c ∈ s.cookies) ∧
      (∀ rid r, rid ∈ rids → lookupA s.reserved rid = some r → r.cookie ∉ s1.cookies) ∧
      (∀ e a, lookupAvail s e = some a → ∃ a1, lookupAvail s1 e = some a1 ∧ a ≤ a1) ∧
      (∀ rid r, rid ∈ rids → lookupA s.reserved rid = some r →
        ∀ a, lookupAvail s r.event = some a →
        ∃ a1, lookupAvail s1 r.event = some a1 ∧ a + r.tickets ≤ a1) := by
  intro rids
  induction rids with
  | nil =>
    intro s hc hnd hcond
    exact ⟨s, rfl, hc, rfl, rfl, rfl, rfl, by simp, fun _ _ => rfl, fun c hcc => hcc,
      by simp, fun e a h => ⟨a, h, le_refl a⟩, by simp⟩
  | cons rid rest ih =>
    intro s hc hnd hcond
    obtain ⟨⟨r, hr⟩, hun⟩ := hcond rid (List.mem_cons_self _ _)
    obtain ⟨s2, heq2, hc2, hexp2, hpur2, htm2, hnt2, hres2, hcook2, hmon2, hcred2⟩ :=
      remove_reservation_spec hc hcat hr hun
    have hnd2 := List.nodup_cons.mp hnd
    have hcond2 : ∀ rid' ∈ rest, (∃ r', lookupA s2.reserved rid' = some r') ∧
        lookupA s2.purchased rid' = none := by
      intro rid' hmem
      have hne : rid' ≠ rid := fun he => hnd2.1 (he ▸ hmem)
      obtain ⟨⟨r', hr'⟩, hun'⟩ := hcond rid' (List.mem_cons_of_mem _ hmem)
      refine ⟨⟨r', ?_⟩, ?_⟩
      · rw [hres2, lookupA_eraseKey_ne hne]; exact hr'
      · rw [hpur2]; exact hun'
    obtain ⟨s1, hrml, hc1, hexp1, hpur1, htm1, hnt1, hnone1, hkeep1, hcmon1, hcgone1,
      hamon1, hacred1⟩ := ih s2 hc2 hnd2.2 hcond2
    refine ⟨s1, ?_, hc1, hexp1.trans hexp2, hpur1.trans hpur2, htm1.trans htm2,
      hnt1.trans hnt2, ?_, ?_, ?_, ?_, ?_, ?_⟩
    · simp [removeList, heq2, hrml]
    · -- all removed ids gone
      intro rid' hmem
      rcases List.mem_cons.mp hmem with he | hmem2
      · subst he
        rw [hkeep1 rid' hnd2.1, hres2]
        exact lookupA_eraseKey_self hc.resSorted
      · exact hnone1 rid' hmem2
    · -- untouched ids keep their binding
      intro rid' hnin
      have hne : rid' ≠ rid := fun he => hnin (he ▸ List.mem_cons_self _ _)
      have hnin2 : rid' ∉ rest := fun hm => hnin (List.mem_cons_of_mem _ hm)
      rw [hkeep1 rid' hnin2, hres2, lookupA_eraseKey_ne hne]
    · -- cookies only shrink
      intro c hcc
      have := hcmon1 c hcc
      rw [hcook2] at this
      exact (s.cookies.erase_sublist r.cookie).subset this
    · -- removed cookies are gone
      intro rid0 r0 hmem hr0
      rcases List.mem_cons.mp hmem with he | hmem2
      · subst he
        have hr0r : r0 = r := by rw [hr0] at hr; exact Option.some.inj hr
        subst hr0r
        intro hcc
        have := hcmon1 _ hcc
        rw [hcook2] at this
        exact hc.cookiesNodup.not_mem_erase this
      · have hne : rid0 ≠ rid := fun he => hnd2.1 (he ▸ hmem2)
        have hr0' : lookupA s2.reserved rid0 = some r0 := by
          rw [hres2, lookupA_eraseKey_ne hne]; exact hr0
        exact hcgone1 rid0 r0 hmem2 hr0'
    · -- availability never decreases
      intro e a hl
      obtain ⟨a2, h2, hle2⟩ := hmon2 e a hl
      obtain ⟨a1, h1, hle1⟩ := hamon1 e a2 h2
      exact ⟨a1, h1, le_trans hle2 hle1⟩
    · -- each removed reservation's tickets are credited back
      intro rid0 r0 hmem hr0 a hl
      rcases List.mem_cons.mp hmem with he | hmem2
      · subst he
        have hr0r : r0 = r := by rw [hr0] at hr; exact Option.some.inj hr
        subst hr0r
        have h2 := hcred2 a hl
        obtain ⟨a1, h1, hle1⟩ := hamon1 _ _ h2
        exact ⟨a1, h1, hle1⟩
      · have hne : rid0 ≠ rid := fun he => hnd2.1 (he ▸ hmem2)
        have hr0' : lookupA s2.reserved rid0 = some r0 := by
          rw [hres2, lookupA_eraseKey_ne hne]; exact hr0
        obtain ⟨a2, h2, hle2⟩ := hmon2 r0.event a hl
        obtain ⟨a1, h1, hle1⟩ := hacred1 rid0 r0 hmem2 hr0' a2 h2
        exact ⟨a1, h1, by omega⟩

theorem removeList_append (l1 l2 : List Nat) (s : TicketServer) :
    removeList (l1 ++ l2) s = (removeList l1 s).bind (removeList l2) := by
  induction l1 generalizing s with
  | nil => simp [removeList]
  | cons rid rest ih =>
    simp only [List.cons_append, removeList]
    cases remove_reservation rid s with
    | none => simp
    | some s2 => simp [ih]

theorem removeEntries_eq_removeList (entries : List (Nat × List Nat)) (s : TicketServer) :
    removeEntries entries s = removeList ((entries.map Prod.snd).flatten) s := by
  induction entries generalizing s with
  | nil => simp [removeEntries, removeList]
  | cons q rest ih =>
    obtain ⟨t, rs⟩ := q
    simp only [removeEntries, List.map_cons, List.flatten_cons, removeList_append]
    cases removeList rs s with
    | none => simp
    | some s2 => simp [ih]

/-- Full effect of `remove_expired_reservations` on a state satisfying the
invariant: it succeeds, preserves the invariant, and removes exactly the
reservations indexed by the consumed entries, crediting their tickets back
and releasing their cookies. -/
theorem sweep_spec {cat : List (Nat × List Byte × Nat)} {s : TicketServer}
    (hinv : Inv cat s) (hcat : CatWF cat) (now : Nat) :
    ∃ s1, remove_expired_reservations now s
        = some (s1, (sweepSplit now s.expiration).2.2) ∧ Inv cat s1 ∧
      s1.purchased = s.purchased ∧ s1.timeout = s.timeout ∧
      s1.next_ticket = s.next_ticket ∧
      s1.expiration = (sweepSplit now s.expiration).2.1 ∧
      (∀ rid ∈ ((sweepSplit now s.expiration).1.map Prod.snd).flatten,
        lookupA s1.reserved rid = none) ∧
      (∀ rid, rid ∉ ((sweepSplit now s.expiration).1.map Prod.snd).flatten →
        lookupA s1.reserved rid = lookupA s.reserved rid) ∧
      (∀ c, c ∈ s1.cookies → c ∈ s.cookies) ∧
      (∀ rid r, rid ∈ ((sweepSplit now s.expiration).1.map Prod.snd).flatten →
        lookupA s.reserved rid = some r → r.cookie ∉ s1.cookies) ∧
      (∀ e a, lookupAvail s e = some a → ∃ a1, lookupAvail s1 e = some a1 ∧ a ≤ a1) ∧
      (∀ rid r, rid ∈ ((sweepSplit now s.expiration).1.map Prod.snd).flatten →
        lookupA s.reserved rid = some r → ∀ a, lookupAvail s r.event = some a →
        ∃ a1, lookupAvail s1 r.event = some a1 ∧ a + r.tickets ≤ a1) := by
  have happ := sweepSplit_append now s.expiration
  have hflat : (s.expiration.map Prod.snd).flatten
      = ((sweepSplit now s.expiration).1.map Prod.snd).flatten
        ++ ((sweepSplit now s.expiration).2.1.map Prod.snd).flatten := by
    conv_lhs => rw [← happ]
    simp
  have hndfull := hinv.indexNodup
  rw [hflat] at hndfull
  have hndrem := hndfull.of_append_left
  have hdisj := List.disjoint_of_nodup_append hndfull
  have hmemP : ∀ q ∈ (sweepSplit now s.expiration).1, q ∈ s.expiration := by
    intro q hq
    rw [← happ]
    exact List.mem_append_left _ hq
  have hmemR : ∀ q ∈ (sweepSplit now s.expiration).2.1, q ∈ s.expiration := by
    intro q hq
    rw [← happ]
    exact List.mem_append_right _ hq
  have hcond : ∀ rid ∈ ((sweepSplit now s.expiration).1.map Prod.snd).flatten,
      (∃ r, lookupA s.reserved rid = some r) ∧ lookupA s.purchased rid = none := by
    intro rid hmem
    obtain ⟨rs, hrs, hridrs⟩ := List.mem_flatten.mp hmem
    obtain ⟨q, hq, hqs⟩ := List.mem_map.mp hrs
    subst hqs
    exact ⟨hinv.indexSound q (hmemP q hq) rid hridrs,
      hinv.indexUnredeemed q (hmemP q hq) rid hridrs⟩
  obtain ⟨s2, hrml, hc2, hexp2, hpur2, htm2, hnt2, hnone2, hkeep2, hcmon2, hcgone2,
    hamon2, hacred2⟩ := removeList_spec hcat _ s hinv.toCoreInv hndrem hcond
  have hRsorted : ((sweepSplit now s.expiration).2.1.map Prod.fst).Pairwise (· < ·) := by
    refine hinv.expSorted.sublist (List.Sublist.map _ ?_)
    conv_rhs => rw [← happ]
    exact List.sublist_append_right _ _
  refine ⟨{ s2 with expiration := (sweepSplit now s.expiration).2.1 }, ?_, ?_, hpur2, htm2,
    hnt2, rfl, ?_, ?_, hcmon2, ?_, hamon2, ?_⟩
  · -- evaluation of the sweeper
    have heval : remove_expired_reservations now s
        = (removeEntries (sweepSplit now s.expiration).1 s).map
          (fun s3 => ({ s3 with expiration := (sweepSplit now s.expiration).2.1 },
            (sweepSplit now s.expiration).2.2)) := rfl
    rw [heval, removeEntries_eq_removeList, hrml]
    rfl
  · -- the invariant is restored once the consumed entries are erased
    refine ⟨⟨hc2.conservation, hc2.eventsSub, hc2.resSorted, hc2.resEvents, hRsorted,
      ?_, ?_, ?_, hc2.cookiesNodup, hc2.resCookies, hc2.resCookiesNodup, ?_⟩, ?_⟩
    · -- indexNodup
      exact hndfull.of_append_right
    · -- indexComplete
      intro p hp hpn
      have hl2 : lookupA s2.reserved p.1 = some p.2 := lookupA_of_mem hc2.resSorted hp
      by_cases hrem : p.1 ∈ ((sweepSplit now s.expiration).1.map Prod.snd).flatten
      · rw [hnone2 p.1 hrem] at hl2; cases hl2
      · rw [hkeep2 p.1 hrem] at hl2
        have hpmem : (p.1, p.2) ∈ s.reserved := lookupA_mem hl2
        have hpn' : lookupA s.purchased p.1 = none := by rw [← hpur2]; exact hpn
        obtain ⟨rs, hlrs, hmemrs⟩ := hinv.indexComplete (p.1, p.2) hpmem hpn'
        have hqmem : (p.2.expiration_time, rs) ∈ s.expiration := lookupA_mem hlrs
        rw [← happ] at hqmem
        rcases List.mem_append.mp hqmem with hin | hin
        · exact absurd (mem_flatten_assoc hin hmemrs) hrem
        · exact ⟨rs, lookupA_of_mem hRsorted hin, hmemrs⟩
    · -- indexUnredeemed
      intro q hq rid hrid
      have : lookupA s.purchased rid = none :=
        hinv.indexUnredeemed q (hmemR q hq) rid hrid
      rw [← hpur2] at this
      exact this
    · -- purchasedSub
      intro rid v hl
      exact hc2.purchasedSub rid v hl
    · -- indexSound
      intro q hq rid hrid
      have hflatmem : rid ∈ ((sweepSplit now s.expiration).2.1.map Prod.snd).flatten :=
        mem_flatten_assoc (by exact hq) hrid
      have hnin : rid ∉ ((sweepSplit now s.expiration).1.map Prod.snd).flatten :=
        fun hmm => hdisj hmm hflatmem
      obtain ⟨r, hr⟩ := hinv.indexSound q (hmemR q hq) rid hrid
      refine ⟨r, ?_⟩
      show lookupA s2.reserved rid = some r
      rw [hkeep2 rid hnin]
      exact hr
  · -- removed ids
    intro rid hmem
    exact hnone2 rid hmem
  · -- kept ids
    intro rid hnin
    exact hkeep2 rid hnin
  · -- removed cookies
    intro rid r hmem hr
    exact hcgone2 rid r hmem hr
  · -- credited availability
    intro rid r hmem hr a hl
    exact hacred2 rid r hmem hr a hl

theorem flatten_assoc_mem {idx : List (Nat × List Nat)} {x : Nat}
    (h : x ∈ (idx.map Prod.snd).flatten) : ∃ q ∈ idx, x ∈ q.2 := by
  obtain ⟨rs, hrs, hx⟩ := List.mem_flatten.mp h
  obtain ⟨q, hq, he⟩ := List.mem_map.mp hrs
  exact ⟨q, hq, he ▸ hx⟩

/-- Source: `create_reservation` preserves the state invariant whenever the handler
guards hold (the event exists with `avail` tickets and the requested count
passed `valid_ticket_count`). -/
theorem create_inv {cat : List (Nat × List Byte × Nat)} {s : TicketServer}
    {now : Nat} {draws : List Cookie} {event t : Nat} {d : List Byte} {avail : Nat}
    (hinv : Inv cat s) (hcat : CatWF cat)
    (hev : lookupA s.events event = some (d, avail))
    (hv : valid_ticket_count t avail = true)
    {rid : Nat} {cookie : Cookie} {exp : Nat} {s1 : TicketServer}
    (hcr : create_reservation now draws event t s = some (rid, cookie, exp, s1)) :
    Inv cat s1 := by
  have hvt : 1 ≤ t ∧ t ≤ min MAX_TICKETS avail := of_decide_eq_true hv
  have htav : t ≤ avail := le_trans hvt.2 (min_le_right _ _)
  -- unpack the create_reservation equation
  simp only [create_reservation] at hcr
  cases hgen : generate_reservation_id (s.reserved.map Prod.fst) with
  | none => rw [hgen] at hcr; cases hcr
  | some rid0 =>
    rw [hgen] at hcr
    cases hck : generate_cookie s.cookies draws with
    | none => rw [hck] at hcr; cases hcr
    | some cookie0 =>
      rw [hck] at hcr
      simp only [Option.some.injEq, Prod.mk.injEq] at hcr
      obtain ⟨hrid, hcookie, hexp, hs1⟩ := hcr
      subst hrid; subst hcookie; subst hexp; subst hs1
      set texp := s.timeout + now with htexp
      set data : ReservationData := ⟨cookie0, texp, event, t⟩ with hdata
      have hfreshk : rid0 ∉ s.reserved.map Prod.fst :=
        generate_reservation_id_fresh hinv.resSorted hgen
      have hfreshl : lookupA s.reserved rid0 = none := (lookupA_eq_none _ _).mpr hfreshk
      have hcknew : cookie0 ∉ s.cookies := generate_cookie_not_mem hck
      have hresperm : (insertSorted s.reserved rid0 data).Perm ((rid0, data) :: s.reserved) :=
        insertSorted_perm_fresh rid0 data hinv.resSorted hfreshl
      have hfreshflat : rid0 ∉ (s.expiration.map Prod.snd).flatten := by
        intro hmm
        obtain ⟨q, hq, hrq⟩ := flatten_assoc_mem hmm
        obtain ⟨r', hr'⟩ := hinv.indexSound q hq rid0 hrq
        rw [hfreshl] at hr'; cases hr'
      have hexpperm := @expirationInsert_flatten_perm s.expiration texp rid0
        hinv.expSorted hfreshflat
      have hpurnone : lookupA s.purchased rid0 = none := by
        cases hp : lookupA s.purchased rid0 with
        | none => rfl
        | some v =>
          obtain ⟨r', hr'⟩ := hinv.purchasedSub rid0 v hp
          rw [hfreshl] at hr'; cases hr'
      -- the event belongs to the catalog
      obtain ⟨⟨d0, i0⟩, hcatl⟩ := hinv.eventsSub event (d, avail) hev
      obtain ⟨a0, ha0, hsum0⟩ := hinv.conservation _ _ _ hcatl
      have hda : d0 = d ∧ a0 = avail := by
        rw [hev] at ha0
        simpa using (Option.some.inj ha0).symm
      obtain ⟨hd0, ha0e⟩ := hda
      have hd0s := hd0.symm
      have ha0s := ha0e.symm
      subst hd0s; subst ha0s
      have hi0lt : i0 < 65536 := hcat _ (lookupA_mem hcatl)
      have hdebit : lookupA (debitTickets s.events event t) event
          = some (d, avail - t) := by
        have hstep := debitTickets_lookup_self hev t
        have harith : (avail + 65536 - t) % 65536 = avail - t := by
          have h1 : avail + 65536 - t = 65536 + (avail - t) := by omega
          rw [h1, Nat.add_mod_left]
          exact Nat.mod_eq_of_lt (by omega)
        rw [harith] at hstep
        exact hstep
      have hsumsplit : ∀ e, sumRes (insertSorted s.reserved rid0 data) e
          = (if event = e then t else 0) + sumRes s.reserved e := by
        intro e
        rw [sumRes_perm hresperm e, sumRes_cons]
      refine ⟨⟨?_, ?_, ?_, ?_, ?_, ?_, ?_, ?_, ?_, ?_, ?_, ?_⟩, ?_⟩
      · -- conservation
        intro e de ie hle
        by_cases he : e = event
        · subst he
          rw [hcatl] at hle
          simp only [Option.some.injEq, Prod.mk.injEq] at hle
          obtain ⟨hde, hie⟩ := hle
          subst hde; subst hie
          refine ⟨avail - t, hdebit, ?_⟩
          have hs2 := hsumsplit e
          simp at hs2
          show avail - t + sumRes (insertSorted s.reserved rid0 data) e = i0
          omega
        · obtain ⟨a, ha, hsum⟩ := hinv.conservation e de ie hle
          refine ⟨a, ?_, ?_⟩
          · show lookupA (debitTickets s.events event t) e = some (de, a)
            rw [debitTickets_lookup_ne he]; exact ha
          · have hs2 := hsumsplit e
            rw [if_neg (fun hh => he hh.symm)] at hs2
            show a + sumRes (insertSorted s.reserved rid0 data) e = ie
            omega
      · -- eventsSub
        intro e v hl
        have hk : (debitTickets s.events event t).map Prod.fst
            = s.events.map Prod.fst := debitTickets_keys (by simp [hev]) _
        have hmemk : e ∈ s.events.map Prod.fst := by
          have h1 : lookupA (debitTickets s.events event t) e ≠ none := by
            rw [hl]; exact fun hh => by cases hh
          have h2 := lookupA_eq_none (debitTickets s.events event t) e
          rw [hk] at h2
          by_contra hcon
          exact h1 (h2.mpr hcon)
        obtain ⟨v', hv'⟩ := Option.ne_none_iff_exists'.mp
          (fun hh => (lookupA_eq_none s.events e).mp hh hmemk)
        exact hinv.eventsSub e v' hv'
      · -- resSorted
        exact insertSorted_sorted rid0 data hinv.resSorted
      · -- resEvents
        intro p hp
        rcases List.mem_cons.mp (hresperm.mem_iff.mp hp) with he | hm
        · subst he
          exact ⟨(d, i0), hcatl⟩
        · exact hinv.resEvents p hm
      · -- expSorted
        exact insertSorted_sorted texp _ hinv.expSorted
      · -- indexNodup
        refine List.Nodup.perm ?_ hexpperm.symm
        exact List.nodup_cons.mpr ⟨hfreshflat, hinv.indexNodup⟩
      · -- indexComplete
        intro p hp hpn
        rcases List.mem_cons.mp (hresperm.mem_iff.mp hp) with he | hm
        · subst he
          refine ⟨(((lookupA s.expiration texp).getD []) ++ [rid0]), ?_, by simp⟩
          have hval : expirationInsert s.expiration texp rid0
              = insertSorted s.expiration texp (((lookupA s.expiration texp).getD []) ++ [rid0]) := by
            cases hle : lookupA s.expiration texp with
            | none => simp [expirationInsert, hle]
            | some rs0 =>
              have hnin : rid0 ∉ rs0 :=
                fun hx => hfreshflat (mem_flatten_assoc (lookupA_mem hle) hx)
              simp [expirationInsert, hle, hnin]
          show lookupA (expirationInsert s.expiration texp rid0) data.expiration_time = _
          rw [hval]
          exact lookupA_insertSorted_self _ _ _
        · have hpn' : lookupA s.purchased p.1 = none := hpn
          obtain ⟨rs, hlrs, hmemrs⟩ := hinv.indexComplete p hm hpn'
          by_cases hte : p.2.expiration_time = texp
          · rw [hte] at hlrs ⊢
            have hval : expirationInsert s.expiration texp rid0
                = insertSorted s.expiration texp (rs ++ [rid0]) := by
              have hnin : rid0 ∉ rs :=
                fun hx => hfreshflat (mem_flatten_assoc (lookupA_mem hlrs) hx)
              simp [expirationInsert, hlrs, hnin]
            refine ⟨rs ++ [rid0], ?_, List.mem_append_left _ hmemrs⟩
            show lookupA (expirationInsert s.expiration texp rid0) texp = _
            rw [hval]
            exact lookupA_insertSorted_self _ _ _
          · refine ⟨rs, ?_, hmemrs⟩
            show lookupA (expirationInsert s.expiration texp rid0) p.2.expiration_time = some rs
            rw [expirationInsert, lookupA_insertSorted_ne hte]
            exact hlrs
      · -- indexUnredeemed
        intro q hq rid' hrid'
        have hmf : rid' ∈ ((expirationInsert s.expiration texp rid0).map Prod.snd).flatten :=
          mem_flatten_assoc hq hrid'
        rcases List.mem_cons.mp (hexpperm.mem_iff.mp hmf) with he | hm
        · subst he; exact hpurnone
        · obtain ⟨q0, hq0, hrq0⟩ := flatten_assoc_mem hm
          exact hinv.indexUnredeemed q0 hq0 rid' hrq0
      · -- cookiesNodup
        exact List.nodup_cons.mpr ⟨hcknew, hinv.cookiesNodup⟩
      · -- resCookies
        intro p hp
        rcases List.mem_cons.mp (hresperm.mem_iff.mp hp) with he | hm
        · subst he; exact List.mem_cons_self _ _
        · exact List.mem_cons_of_mem _ (hinv.resCookies p hm)
      · -- resCookiesNodup
        refine List.Nodup.perm ?_ (hresperm.map (fun p => p.2.cookie)).symm
        refine List.nodup_cons.mpr ⟨?_, hinv.resCookiesNodup⟩
        intro hmm
        obtain ⟨p, hp, hpc⟩ := List.mem_map.mp hmm
        have hceq : p.2.cookie = cookie0 := hpc
        exact hcknew (hceq ▸ hinv.resCookies p hp)
      · -- purchasedSub
        intro rid' v hl
        obtain ⟨r', hr'⟩ := hinv.purchasedSub rid' v hl
        have hne : rid' ≠ rid0 := by
          intro he; rw [he, hfreshl] at hr'; cases hr'
        refine ⟨r', ?_⟩
        show lookupA (insertSorted s.reserved rid0 data) rid' = some r'
        rw [lookupA_insertSorted_ne hne]
        exact hr'
      · -- indexSound
        intro q hq rid' hrid'
        have hmf : rid' ∈ ((expirationInsert s.expiration texp rid0).map Prod.snd).flatten :=
          mem_flatten_assoc hq hrid'
        rcases List.mem_cons.mp (hexpperm.mem_iff.mp hmf) with he | hm
        · subst he
          exact ⟨data, lookupA_insertSorted_self _ _ _⟩
        · obtain ⟨q0, hq0, hrq0⟩ := flatten_assoc_mem hm
          obtain ⟨r', hr'⟩ := hinv.indexSound q0 hq0 rid' hrq0
          have hne : rid' ≠ rid0 := by
            intro he; rw [he, hfreshl] at hr'; cases hr'
          refine ⟨r', ?_⟩
          show lookupA (insertSorted s.reserved rid0 data) rid' = some r'
          rw [lookupA_insertSorted_ne hne]
          exact hr'

/-- The first redemption of a reservation (`assign_tickets` followed by
`disable_expiration`, as performed by `send_tickets`) preserves the state
invariant. -/
theorem redeem_inv {cat : List (Nat × List Byte × Nat)} {s : TicketServer}
    {rid : Nat} {r : ReservationData} (tc : Nat)
    (hinv : Inv cat s) (hr : lookupA s.reserved rid = some r)
    (hun : lookupA s.purchased rid = none) :
    Inv cat (disable_expiration rid (assign_tickets rid tc s)) := by
  have hs1 : disable_expiration rid (assign_tickets rid tc s)
      = { s with
          purchased := insertSorted s.purchased rid
            (((lookupA s.purchased rid).getD [])
              ++ (generate_tickets tc s.next_ticket).1),
          next_ticket := (generate_tickets tc s.next_ticket).2,
          expiration := expirationErase s.expiration r.expiration_time rid } := by
    simp [disable_expiration, assign_tickets, hr]
  rw [hs1]
  set pur1 := insertSorted s.purchased rid
    (((lookupA s.purchased rid).getD []) ++ (generate_tickets tc s.next_ticket).1)
    with hpur1
  obtain ⟨rs, hlrs, hrmem⟩ := hinv.indexComplete (rid, r) (lookupA_mem hr) hun
  have hrs0 : (lookupA s.expiration r.expiration_time).getD [] = rs := by
    rw [hlrs]; rfl
  obtain ⟨fl0, hold, hnew⟩ :=
    expirationErase_flatten_spec r.expiration_time rid hinv.expSorted
  rw [hrs0] at hold hnew
  have holdnd : (rs ++ fl0).Nodup := hinv.indexNodup.perm hold
  have hridfl0 : rid ∉ fl0 := fun hmm => (List.disjoint_of_nodup_append holdnd) hrmem hmm
  have hrsnd : rs.Nodup := holdnd.of_append_left
  have hsubnew : List.Sublist (rs.erase rid ++ fl0) (rs ++ fl0) :=
    List.Sublist.append (rs.erase_sublist rid) (List.Sublist.refl fl0)
  have hmemnew : ∀ x, x ∈ ((expirationErase s.expiration r.expiration_time rid).map
      Prod.snd).flatten → x ∈ (s.expiration.map Prod.snd).flatten := by
    intro x hx
    have := hnew.mem_iff.mp hx
    exact hold.mem_iff.mpr (hsubnew.subset this)
  have hridnew : rid ∉ ((expirationErase s.expiration r.expiration_time rid).map
      Prod.snd).flatten := by
    intro hx
    rcases List.mem_append.mp (hnew.mem_iff.mp hx) with hc | hc
    · exact hrsnd.not_mem_erase hc
    · exact hridfl0 hc
  refine ⟨⟨hinv.conservation, hinv.eventsSub, hinv.resSorted, hinv.resEvents, ?_, ?_,
    ?_, ?_, hinv.cookiesNodup, hinv.resCookies, hinv.resCookiesNodup, ?_⟩, ?_⟩
  · -- expSorted
    show (((expirationErase s.expiration r.expiration_time rid).map Prod.fst)).Pairwise (· < ·)
    rw [expirationErase]
    exact insertSorted_sorted _ _ hinv.expSorted
  · -- indexNodup
    exact (holdnd.sublist hsubnew).perm hnew.symm
  · -- indexComplete
    intro p hp hpn1
    have hne : p.1 ≠ rid := by
      intro he
      rw [he] at hpn1
      have : lookupA pur1 rid = some (((lookupA s.purchased rid).getD [])
          ++ (generate_tickets tc s.next_ticket).1) := lookupA_insertSorted_self _ _ _
      rw [hpn1] at this; cases this
    have hpn : lookupA s.purchased p.1 = none := by
      have := @lookupA_insertSorted_ne _ s.purchased rid p.1
        (((lookupA s.purchased rid).getD []) ++ (generate_tickets tc s.next_ticket).1) hne
      rw [← this]; exact hpn1
    obtain ⟨rsp, hlrsp, hmemp⟩ := hinv.indexComplete p hp hpn
    by_cases hte : p.2.expiration_time = r.expiration_time
    · rw [hte] at hlrsp
      have hrsp : rsp = rs := by rw [hlrsp] at hlrs; exact Option.some.inj hlrs
      subst hrsp
      refine ⟨rsp.erase rid, ?_, (List.mem_erase_of_ne hne).mpr hmemp⟩
      show lookupA (expirationErase s.expiration r.expiration_time rid)
        p.2.expiration_time = _
      rw [hte, expirationErase, hrs0]
      exact lookupA_insertSorted_self _ _ _
    · refine ⟨rsp, ?_, hmemp⟩
      show lookupA (expirationErase s.expiration r.expiration_time rid)
        p.2.expiration_time = some rsp
      rw [expirationErase, lookupA_insertSorted_ne hte]
      exact hlrsp
  · -- indexUnredeemed
    intro q hq rid' hrid'
    have hmf := mem_flatten_assoc hq hrid'
    have hne : rid' ≠ rid := fun he => hridnew (he ▸ hmf)
    obtain ⟨q0, hq0, hrq0⟩ := flatten_assoc_mem (hmemnew rid' hmf)
    have := hinv.indexUnredeemed q0 hq0 rid' hrq0
    show lookupA pur1 rid' = none
    rw [hpur1, lookupA_insertSorted_ne hne]
    exact this
  · -- purchasedSub
    intro rid' v hl
    by_cases hne : rid' = rid
    · subst hne; exact ⟨r, hr⟩
    · rw [hpur1, lookupA_insertSorted_ne hne] at hl
      exact hinv.purchasedSub rid' v hl
  · -- indexSound
    intro q hq rid' hrid'
    have hmf := mem_flatten_assoc hq hrid'
    obtain ⟨q0, hq0, hrq0⟩ := flatten_assoc_mem (hmemnew rid' hmf)
    exact hinv.indexSound q0 hq0 rid' hrq0

/-! ## Invariant preservation over a full dispatch -/

theorem handle_get_events_fst (dgram : List Byte) (s : TicketServer) :
    (handle_get_events_request dgram s).1 = s := by
  by_cases hl : dgram.length ≠ GET_EVENTS_LEN
  · simp [handle_get_events_request, hl]
  · simp [handle_get_events_request, hl]

/-- The state after a `GET_TICKETS` handler run: unchanged, or a first
redemption of some stored reservation. -/
theorem handle_get_tickets_state (dgram : List Byte) (s : TicketServer) :
    (handle_get_tickets_request dgram s).1 = s ∨
    ∃ rid r, lookupA s.reserved rid = some r ∧ lookupA s.purchased rid = none ∧
      (handle_get_tickets_request dgram s).1
        = disable_expiration rid (assign_tickets rid r.tickets s) := by
  by_cases hl : dgram.length ≠ GET_TICKETS_LEN
  · left; simp [handle_get_tickets_request, hl]
  · simp only [handle_get_tickets_request, if_neg hl]
    cases hr : lookupA s.reserved (decodeU32 dgram 1) with
    | none => left; rfl
    | some r =>
      by_cases hck : (dgram.drop 5).take COOKIE_LEN = r.cookie
      · simp only [if_pos hck]
        by_cases hpu : lookupA s.purchased (decodeU32 dgram 1) = none
        · right
          exact ⟨decodeU32 dgram 1, r, hr, hpu, by simp [send_tickets, hpu]⟩
        · left; simp [send_tickets, hpu]
      · left; simp [hck]

/-- The state after a `GET_RESERVATION` handler run: unchanged, or produced by
a guarded `create_reservation`. -/
theorem handle_get_reservation_state {now : Nat} {draws : List Cookie}
    {dgram : List Byte} {s s1 : TicketServer} {rep : Option (List Byte)}
    (hh : handle_get_reservation_request now draws dgram s = some (s1, rep)) :
    s1 = s ∨
    ∃ event d avail t rid cookie exp,
      lookupA s.events event = some (d, avail) ∧ valid_ticket_count t avail = true ∧
      create_reservation now draws event t s = some (rid, cookie, exp, s1) := by
  by_cases hl : dgram.length ≠ GET_RESERVATION_LEN
  · left
    simp only [handle_get_reservation_request, if_pos hl, Option.some.injEq,
      Prod.mk.injEq] at hh
    exact hh.1.symm
  · simp only [handle_get_reservation_request, if_neg hl] at hh
    cases hev : lookupA s.events (decodeU32 dgram 1) with
    | none =>
      simp only [hev, Option.some.injEq, Prod.mk.injEq] at hh
      exact Or.inl hh.1.symm
    | some info =>
      simp only [hev] at hh
      by_cases hv : valid_ticket_count (decodeU16 dgram 5) info.2 = true
      · rw [if_pos hv] at hh
        simp only [Option.map_eq_some'] at hh
        obtain ⟨⟨rid, cookie, exp, s2⟩, hcr, hout⟩ := hh
        simp only [Prod.mk.injEq] at hout
        right
        exact ⟨decodeU32 dgram 1, info.1, info.2, decodeU16 dgram 5, rid, cookie, exp,
          by rw [hev], hv, by rw [hcr, hout.1]⟩
      · rw [if_neg hv] at hh
        simp only [Option.some.injEq, Prod.mk.injEq] at hh
        exact Or.inl hh.1.symm

theorem handle_request_inv {cat : List (Nat × List Byte × Nat)}
    {s s1 : TicketServer} {now : Nat} {draws : List Cookie} {dgram : List Byte}
    {rep : Option (List Byte)} (hinv : Inv cat s) (hcat : CatWF cat)
    (hh : handle_request now draws dgram s = some (s1, rep)) : Inv cat s1 := by
  unfold handle_request at hh
  cases hb : dgram.head? with
  | none =>
    simp only [hb, Option.some.injEq, Prod.mk.injEq] at hh
    rw [← hh.1]; exact hinv
  | some b =>
    simp only [hb] at hh
    by_cases h1 : b = 1
    · rw [if_pos h1] at hh
      simp only [Option.some.injEq] at hh
      have hpf := congrArg Prod.fst hh
      simp only at hpf
      have hs1 : s1 = s := by
        rw [← hpf]
        exact handle_get_events_fst dgram s
      rw [hs1]; exact hinv
    · rw [if_neg h1] at hh
      by_cases h3 : b = 3
      · rw [if_pos h3] at hh
        rcases handle_get_reservation_state hh with he | hcr
        · rw [he]; exact hinv
        · obtain ⟨event, d, avail, t, rid, cookie, exp, hev, hv, hcr⟩ := hcr
          exact create_inv hinv hcat hev hv hcr
      · rw [if_neg h3] at hh
        by_cases h5 : b = 5
        · rw [if_pos h5] at hh
          simp only [Option.some.injEq] at hh
          rcases handle_get_tickets_state dgram s with he | hrd
          · have hpf := congrArg Prod.fst hh
            simp only at hpf
            have hs1 : s1 = s := by
              rw [← hpf]; exact he
            rw [hs1]; exact hinv
          · obtain ⟨rid, r, hr, hpu, he⟩ := hrd
            have hpf := congrArg Prod.fst hh
            simp only at hpf
            have hs1 : s1 = disable_expiration rid (assign_tickets rid r.tickets s) := by
              rw [← hpf]; exact he
            rw [hs1]
            exact redeem_inv r.tickets hinv hr hpu
        · rw [if_neg h5] at hh
          simp only [Option.some.injEq, Prod.mk.injEq] at hh
          rw [← hh.1]; exact hinv

theorem dispatch_inv {cat : List (Nat × List Byte × Nat)} {s s1 : TicketServer}
    {now : Nat} {draws : List Cookie} {dgram : List Byte} {rep : Option (List Byte)}
    (hinv : Inv cat s) (hcat : CatWF cat)
    (hd : dispatch now draws dgram s = some (s1, rep)) : Inv cat s1 := by
  by_cases hne : dgram = []
  · simp only [dispatch, if_pos hne, Option.some.injEq, Prod.mk.injEq] at hd
    rw [← hd.1]; exact hinv
  · simp only [dispatch, if_neg hne] at hd
    obtain ⟨s2, hsw, hinv2, _⟩ := sweep_spec hinv hcat now
    rw [hsw] at hd
    exact handle_request_inv hinv2 hcat hd

/-- The invariant holds at startup. -/
theorem initState_inv (cat : List (Nat × List Byte × Nat)) (timeout : Nat) :
    Inv cat (initState cat timeout) := by
  refine ⟨⟨?_, ?_, ?_, ?_, ?_, ?_, ?_, ?_, ?_, ?_, ?_, ?_⟩, ?_⟩
  · intro e d i hl
    exact ⟨i, hl, by simp [sumRes, initState]⟩
  · intro e v hl
    exact ⟨v, hl⟩
  · simp [initState]
  · intro p hp; simp [initState] at hp
  · simp [initState]
  · simp [initState]
  · intro p hp; simp [initState] at hp
  · intro q hq; simp [initState] at hq
  · simp [initState]
  · intro p hp; simp [initState] at hp
  · simp [initState]
  · intro rid v hl; simp [initState, lookupA] at hl
  · intro q hq; simp [initState] at hq

/-- Every state reachable by the request loop satisfies the invariant. -/
theorem reachable_inv {cat : List (Nat × List Byte × Nat)} {s : TicketServer}
    (hcat : CatWF cat) (hre : Reachable cat s) : Inv cat s := by
  induction hre with
  | init timeout => exact initState_inv cat timeout
  | step now draws dgram hre hdw hd ih => exact dispatch_inv ih hcat hd

theorem sweepSplit_rest_ge {now : Nat} {l : List (Nat × List Nat)}
    (hs : (l.map Prod.fst).Pairwise (· < ·)) :
    ∀ q ∈ (sweepSplit now l).2.1, now ≤ q.1 := by
  induction l with
  | nil => simp [sweepSplit]
  | cons q rest ih =>
    obtain ⟨t, rs⟩ := q
    simp only [List.map_cons, List.pairwise_cons] at hs
    by_cases h : t < now
    · simp only [sweepSplit, if_pos h]
      exact ih hs.2
    · simp only [sweepSplit, if_neg h]
      intro q2 hq2
      rcases List.mem_cons.mp hq2 with he | hm
      · subst he; omega
      · have := hs.1 q2.1 (List.mem_map.mpr ⟨q2, hm, rfl⟩)
        omega

theorem exS1_eval : dispatch 100 [exCookie] exResDgram exS0 = some (exS1, exRep1) := by decide

theorem exS2_eval : dispatch 101 [] exTickDgram exS1 = some (exS2, exRep2) := by decide

theorem exS1_reach : Reachable exCat exS1 :=
  Reachable.step 100 [exCookie] exResDgram (Reachable.init 5)
    (by unfold DrawsWF; decide) exS1_eval

theorem exS2_reach : Reachable exCat exS2 :=
  Reachable.step 101 [] exTickDgram exS1_reach (by unfold DrawsWF; decide) exS2_eval

/-! ## Claim theorems -/

/-- C1 (counterexample): the catalog conservation law as stated — available
plus the sum over active *unredeemed* reservations equals the initial count —
fails in a reachable state right after a redemption: event 0 started with 10
tickets, 3 were reserved and redeemed, available is 7, the unredeemed sum is
0, and 7 + 0 ≠ 10. -/
theorem c1_counterexample :
    Reachable exCat exS2 ∧
    lookupA exCat 0 = some ([67, 111, 110, 99, 101, 114, 116], 10) ∧
    lookupAvail exS2 0 = some 7 ∧ sumUnredeemed exS2 0 = 0 ∧
    7 + sumUnredeemed exS2 0 ≠ 10 :=
  ⟨exS2_reach, by decide, by decide, by decide, by decide⟩

/-- C1 (amended): for every reachable server state and every event of the
catalog, the event's available tickets plus the sum of `ticket_count` over
*all* stored reservations of that event (redeemed reservations stay in the
store and keep holding their tickets; expired unredeemed ones are removed
and credited back) equals the event's initial ticket count. -/
theorem c1_conservation {cat : List (Nat × List Byte × Nat)} {s : TicketServer}
    (hcat : CatWF cat) (hre : Reachable cat s) :
    ∀ e d i, lookupA cat e = some (d, i) →
      ∃ a, lookupAvail s e = some a ∧ a + sumRes s.reserved e = i := by
  intro e d i hl
  obtain ⟨a, ha, hsum⟩ := (reachable_inv hcat hre).conservation e d i hl
  exact ⟨a, by simp [lookupAvail, ha], hsum⟩

/-- C1 (witness): the amended law evaluated on the concrete two-request
scenario: after reserving and redeeming 3 tickets of event 0, available (7)
plus the stored sum (3) is the initial count (10). -/
theorem c1_conservation_witness :
    CatWF exCat ∧ Reachable exCat exS2 ∧
    (∃ a, lookupAvail exS2 0 = some a ∧ a + sumRes exS2.reserved 0 = 10) := by
  have hcat : CatWF exCat := by unfold CatWF; decide
  exact ⟨hcat, exS2_reach,
    c1_conservation hcat exS2_reach 0 [67, 111, 110, 99, 101, 114, 116] 10 (by decide)⟩

/-- C2 (counterexample): a reservation with expiration time 105, not
redeemed, survives the sweep run by a dispatch at wall-clock time exactly
105 — the sweeper only consumes keys *strictly* below `now`, so "at or after
the expiration time" is wrong at the boundary: the store entry, the cookie
and the withheld tickets are all still in place. -/
theorem c2_counterexample :
    Reachable exCat exS1 ∧
    lookupA exS1.reserved MIN_RESERVATION_ID = some ⟨exCookie, 105, 0, 3⟩ ∧
    lookupA exS1.purchased MIN_RESERVATION_ID = none ∧
    remove_expired_reservations 105 exS1 = some (exS1, false) ∧
    exCookie ∈ exS1.cookies ∧
    lookupAvail exS1 0 = some 7 :=
  ⟨exS1_reach, by decide, by decide, by decide, by decide, by decide⟩

/-- C2 (amended): if a reservation of a reachable state is not redeemed, then
the sweeper run by the next dispatch at any wall-clock time *strictly after*
its expiration time removes it: its store entry is deleted, its cookie is
released, it is gone from the expiration index, and its `ticket_count` has
been added back to its event's available count (together with any other
reservations expiring in the same sweep). -/
theorem c2_expiration_sweep {cat : List (Nat × List Byte × Nat)} {s : TicketServer}
    (hcat : CatWF cat) (hre : Reachable cat s) {rid : Nat} {r : ReservationData}
    (hr : lookupA s.reserved rid = some r)
    (hun : lookupA s.purchased rid = none) {now : Nat}
    (hnow : r.expiration_time < now) :
    ∃ s1 flag, remove_expired_reservations now s = some (s1, flag) ∧
      lookupA s1.reserved rid = none ∧
      r.cookie ∉ s1.cookies ∧
      (∀ q ∈ s1.expiration, rid ∉ q.2) ∧
      (∃ a a1, lookupAvail s r.event = some a ∧ lookupAvail s1 r.event = some a1 ∧
        a + r.tickets ≤ a1) := by
  have hinv := reachable_inv hcat hre
  obtain ⟨rs, hlrs, hmemrs⟩ := hinv.indexComplete (rid, r) (lookupA_mem hr) hun
  obtain ⟨s1, hsw, hinv1, hpur, htm, hnt, hexp, hnone, hkeep, hcmon, hcgone, hamon,
    hacred⟩ := sweep_spec hinv hcat now
  have hlrs2 : lookupA s.expiration r.expiration_time = some rs := hlrs
  have hqmem : (r.expiration_time, rs) ∈ s.expiration := lookupA_mem hlrs2
  have happ := sweepSplit_append now s.expiration
  have hrmem : rid ∈ ((sweepSplit now s.expiration).1.map Prod.snd).flatten := by
    rw [← happ] at hqmem
    rcases List.mem_append.mp hqmem with hin | hin
    · exact mem_flatten_assoc hin hmemrs
    · have := sweepSplit_rest_ge hinv.expSorted (r.expiration_time, rs) hin
      simp only at this
      omega
  refine ⟨s1, (sweepSplit now s.expiration).2.2, hsw, hnone rid hrmem,
    hcgone rid r hrmem hr, ?_, ?_⟩
  · intro q hq hin
    obtain ⟨r', hr'⟩ := hinv1.indexSound q hq rid hin
    rw [hnone rid hrmem] at hr'
    cases hr'
  · obtain ⟨⟨d0, i0⟩, hcatl⟩ := hinv.resEvents (rid, r) (lookupA_mem hr)
    have hcatl2 : lookupA cat r.event = some (d0, i0) := hcatl
    obtain ⟨a0, ha0, hsum0⟩ := hinv.conservation _ _ _ hcatl2
    have ha02 : lookupAvail s r.event = some a0 := by simp [lookupAvail, ha0]
    obtain ⟨a1, ha1, hle⟩ := hacred rid r hrmem hr a0 ha02
    exact ⟨a0, a1, ha02, ha1, hle⟩

/-- C2 (witness): the amended statement evaluated on the concrete scenario:
sweeping at time 106 > 105 deletes reservation 1000000, releases its cookie,
drops it from the index, and restores event 0's availability from 7 to at
least 10. -/
theorem c2_expiration_witness :
    CatWF exCat ∧
    (∃ s1 flag, remove_expired_reservations 106 exS1 = some (s1, flag) ∧
      lookupA s1.reserved MIN_RESERVATION_ID = none ∧
      exCookie ∉ s1.cookies ∧
      (∀ q ∈ s1.expiration, MIN_RESERVATION_ID ∉ q.2) ∧
      (∃ a a1, lookupAvail exS1 0 = some a ∧ lookupAvail s1 0 = some a1 ∧
        a + 3 ≤ a1)) := by
  have hcat : CatWF exCat := by unfold CatWF; decide
  refine ⟨hcat, ?_⟩
  exact @c2_expiration_sweep exCat exS1 hcat exS1_reach MIN_RESERVATION_ID
    ⟨exCookie, 105, 0, 3⟩ (by decide) (by decide) 106 (by decide)

/-- C3: the sweeper's loop condition evaluates the key under the iterator
before comparing the iterator against `end()`.  In this total embedding the
read at `end()` is the flag of `sweepSplit`: it is raised exactly when every
entry key is below `now` — in particular always when the index is empty —
and the freshly started server (whose index is empty, e.g. on the first
non-empty datagram after startup) is reachable and raises it on every sweep,
so the guard order makes the access unsafe. -/
theorem c3_sweeper_end_read :
    (∀ (now : Nat) (idx : List (Nat × List Nat)),
      (sweepSplit now idx).2.2 = true ↔ ∀ q ∈ idx, q.1 < now) ∧
    (∀ (cat : List (Nat × List Byte × Nat)) (timeout now : Nat),
      Reachable cat (initState cat timeout) ∧
      remove_expired_reservations now (initState cat timeout)
        = some (initState cat timeout, true)) :=
  ⟨sweepSplit_flag_iff, fun _ timeout _ => ⟨Reachable.init timeout, rfl⟩⟩

/-- C9: cookie shape and uniqueness.  Every cookie produced by
`generate_cookie` from a well-formed stream of RNG candidates has exactly
`COOKIE_LEN` (48) bytes, each in `[33, 126]`, and differs from every live
cookie; and in every reachable state the cookies of the stored reservations
are pairwise distinct. -/
theorem c9_cookies :
    (∀ (cookies draws : List Cookie) (c : Cookie), DrawsWF draws →
      generate_cookie cookies draws = some c →
      c.length = COOKIE_LEN ∧ (∀ b ∈ c, MIN_COOKIE_CHAR ≤ b ∧ b ≤ MAX_COOKIE_CHAR) ∧
      c ∉ cookies) ∧
    (∀ (cat : List (Nat × List Byte × Nat)) (s : TicketServer), CatWF cat →
      Reachable cat s → (s.reserved.map (fun p => p.2.cookie)).Nodup) := by
  constructor
  · intro cookies draws c hdw hc
    obtain ⟨hlen, hrange⟩ := hdw c (generate_cookie_mem_draws hc)
    exact ⟨hlen, hrange, generate_cookie_not_mem hc⟩
  · intro cat s hcat hre
    exact (reachable_inv hcat hre).resCookiesNodup

/-- C9 (witness): the shape facts for a concrete draw and the distinctness
for the concrete reachable one-reservation state. -/
theorem c9_witness :
    DrawsWF [exCookie] ∧ generate_cookie [] [exCookie] = some exCookie ∧
    (exCookie.length = COOKIE_LEN ∧
      (∀ b ∈ exCookie, MIN_COOKIE_CHAR ≤ b ∧ b ≤ MAX_COOKIE_CHAR) ∧
      exCookie ∉ ([] : List Cookie)) ∧
    (exS1.reserved.map (fun p => p.2.cookie)).Nodup := by
  have hdw : DrawsWF [exCookie] := by unfold DrawsWF; decide
  exact ⟨hdw, by decide, c9_cookies.1 [] [exCookie] exCookie hdw (by decide),
    c9_cookies.2 exCat exS1 (by unfold CatWF; decide) exS1_reach⟩

/-- C10: expiration-index soundness.  In every reachable state every
reservation id in any expiration-index entry is a key of `reserved` (each
operation preserves this, by induction over reachability), and consequently
the sweeper — whose `remove_reservation` dereferences
`reserved.find(reservation)` without checking it against `end()` — never
hits the unchecked dereference: `remove_expired_reservations` always
succeeds on a reachable state. -/
theorem c10_index_sound :
    (∀ (cat : List (Nat × List Byte × Nat)) (s : TicketServer), CatWF cat →
      Reachable cat s →
      ∀ q ∈ s.expiration, ∀ rid ∈ q.2, ∃ r, lookupA s.reserved rid = some r) ∧
    (∀ (cat : List (Nat × List Byte × Nat)) (s : TicketServer) (now : Nat),
      CatWF cat → Reachable cat s →
      ∃ s1 flag, remove_expired_reservations now s = some (s1, flag)) := by
  constructor
  · intro cat s hcat hre
    exact (reachable_inv hcat hre).indexSound
  · intro cat s now hcat hre
    obtain ⟨s1, hsw, _⟩ := sweep_spec (reachable_inv hcat hre) hcat now
    exact ⟨s1, _, hsw⟩

/-- C10 (witness): index soundness and sweeper totality evaluated on the
concrete reachable one-reservation state. -/
theorem c10_witness :
    (∀ q ∈ exS1.expiration, ∀ rid ∈ q.2, ∃ r, lookupA exS1.reserved rid = some r) ∧
    (∃ s1 flag, remove_expired_reservations 100 exS1 = some (s1, flag)) := by
  have hcat : CatWF exCat := by unfold CatWF; decide
  exact ⟨c10_index_sound.1 exCat exS1 hcat exS1_reach,
    c10_index_sound.2 exCat exS1 100 hcat exS1_reach⟩

/-- C4 (counterexample): the claimed fallback — "otherwise return the first
gap id, the smallest id ≥ 1,000,000 absent from the store" — is not what the
code does.  On the store `{1000000, 4294967295}` (maximum at `2^32 − 1`), the
source returns `smallest − 1 = 999999`, which is below `MIN_RESERVATION_ID`
and is not the smallest absent id ≥ 1,000,000 (that would be 1000001). -/
theorem c4_counterexample :
    generate_reservation_id [1000000, 4294967295] = some 999999 ∧
    999999 < MIN_RESERVATION_ID ∧
    (MIN_RESERVATION_ID ≤ 1000001 ∧ (1000001 : Nat) ∉ [1000000, 4294967295]) ∧
    (999999 : Nat) ≠ 1000001 :=
  ⟨by decide, by decide, by decide, by decide⟩

/-- C4 (amended): `generate_reservation_id` returns 1,000,000 on an empty
store; else `M + 1` when `M + 1 ≤ 2^32 − 1` (`M` the maximum stored id); else
(when `M = 2^32 − 1`) it returns `m − 1` where `m` is the *minimum* stored
id, provided `m ≥ 1` (the claimed gap scan only runs when additionally
`m = 0`).  In every defined case the returned id is absent from the store,
and it lies in `[1_000_000, 2^32 − 1]` whenever every stored id does and the
maximum is below `2^32 − 1`. -/
theorem c4_generate_reservation_id {keys : List Nat} (hs : keys.Pairwise (· < ·)) :
    (keys = [] → generate_reservation_id keys = some MIN_RESERVATION_ID) ∧
    (∀ k ks, keys = k :: ks → ks.getLastD k ≤ UINT32_MAX - 1 →
      generate_reservation_id keys = some (ks.getLastD k + 1)) ∧
    (∀ k ks, keys = k :: ks → ¬ ks.getLastD k ≤ UINT32_MAX - 1 → 1 ≤ k →
      generate_reservation_id keys = some (k - 1)) ∧
    (∀ rid, generate_reservation_id keys = some rid → rid ∉ keys) ∧
    (∀ rid, generate_reservation_id keys = some rid →
      (∀ x ∈ keys, MIN_RESERVATION_ID ≤ x) →
      (∀ k ks, keys = k :: ks → ks.getLastD k ≤ UINT32_MAX - 1) →
      MIN_RESERVATION_ID ≤ rid ∧ rid ≤ UINT32_MAX) := by
  refine ⟨?_, ?_, ?_, fun rid h => generate_reservation_id_fresh hs h, ?_⟩
  · intro h; subst h; rfl
  · intro k ks hk hle; subst hk
    simp only [generate_reservation_id]
    rw [if_pos hle]
  · intro k ks hk hle h1; subst hk
    simp only [generate_reservation_id]
    rw [if_neg hle, if_pos h1]
  · intro rid h hmin hmax
    match keys, hmin, hmax, h with
    | [], _, _, h =>
      have hrid : MIN_RESERVATION_ID = rid := by
        simpa [generate_reservation_id] using h
      rw [← hrid]
      exact ⟨le_refl _, by decide⟩
    | k :: ks, hmin, hmax, h =>
      have hle := hmax k ks rfl
      simp only [generate_reservation_id, if_pos hle, Option.some.injEq] at h
      have hmem : ks.getLastD k ∈ k :: ks := List.getLastD_mem_cons ks k
      have hlo := hmin _ hmem
      rw [← h]
      constructor
      · have : MIN_RESERVATION_ID ≤ ks.getLastD k := hlo
        omega
      · have h2 : ks.getLastD k ≤ UINT32_MAX - 1 := hle
        have h3 : (1 : Nat) ≤ UINT32_MAX := by decide
        omega

/-- C4 (witness): on the sorted store `{1000000, 1000002}` the allocator
returns the maximum plus one, 1000003, which is fresh and in range. -/
theorem c4_witness :
    generate_reservation_id [1000000, 1000002] = some 1000003 ∧
    (1000003 : Nat) ∉ [1000000, 1000002] ∧
    MIN_RESERVATION_ID ≤ 1000003 ∧ (1000003 : Nat) ≤ UINT32_MAX := by
  have h := @c4_generate_reservation_id [1000000, 1000002] (by decide)
  have heq : generate_reservation_id [1000000, 1000002] = some 1000003 := by
    have := h.2.1 1000000 [1000002] rfl (by decide)
    simpa using this
  refine ⟨heq, h.2.2.2.1 1000003 heq, ?_⟩
  have := h.2.2.2.2 1000003 heq (by decide) (by intro k ks hk; cases hk; decide)
  exact this

/-- C5: redemption idempotence.  For a stored reservation that has already
been redeemed (its id is a key of `purchased`), a `GET_TICKETS` request with
the matching cookie is answered with a byte-identical `TICKETS` reply — the
stored codes in stored order — and leaves the server state unchanged, so a
repeated identical request returns exactly the same bytes. -/
theorem c5_redemption_idempotent {dgram : List Byte} {s : TicketServer}
    {r : ReservationData} {tl : List (List Byte)}
    (hlen : dgram.length = GET_TICKETS_LEN)
    (hr : lookupA s.reserved (decodeU32 dgram 1) = some r)
    (hck : (dgram.drop 5).take COOKIE_LEN = r.cookie)
    (hpu : lookupA s.purchased (decodeU32 dgram 1) = some tl) :
    handle_get_tickets_request dgram s
      = (s, some (6 :: (encU32 (decodeU32 dgram 1) ++ encU16 r.tickets
          ++ (tl.take r.tickets).flatten))) ∧
    handle_get_tickets_request dgram (handle_get_tickets_request dgram s).1
      = handle_get_tickets_request dgram s := by
  have h1 : handle_get_tickets_request dgram s
      = (s, some (6 :: (encU32 (decodeU32 dgram 1) ++ encU16 r.tickets
          ++ (tl.take r.tickets).flatten))) := by
    simp only [handle_get_tickets_request, hr, if_pos hck, send_tickets, hpu]
    simp [hlen, hpu]
  refine ⟨h1, ?_⟩
  rw [h1]
  exact h1

/-- C5 (witness): in the concrete scenario state after one redemption, the
repeated `GET_TICKETS` reply is byte-identical and the state does not move. -/
theorem c5_witness :
    lookupA exS2.purchased (decodeU32 exTickDgram 1)
      = some [[48, 48, 48, 48, 48, 48, 48], [49, 48, 48, 48, 48, 48, 48],
              [50, 48, 48, 48, 48, 48, 48]] ∧
    handle_get_tickets_request exTickDgram (handle_get_tickets_request exTickDgram exS2).1
      = handle_get_tickets_request exTickDgram exS2 := by
  refine ⟨by decide, ?_⟩
  exact (@c5_redemption_idempotent exTickDgram exS2 ⟨exCookie, 105, 0, 3⟩
    [[48, 48, 48, 48, 48, 48, 48], [49, 48, 48, 48, 48, 48, 48],
     [50, 48, 48, 48, 48, 48, 48]]
    (by decide) (by decide) (by decide) (by decide)).2

/-- C7 (counterexample): the first redemption of the 3-ticket reservation on
a fresh server yields the codes `"0000000"`, `"1000000"`, `"2000000"` — the
cursor is incremented at *position 0* — not `"0000000"`, `"0000001"`,
`"0000002"` as the claim lists (`"0000001"` is the byte string
`48 48 48 48 48 48 49`). -/
theorem c7_counterexample :
    dispatch 101 [] exTickDgram exS1 = some (exS2,
      some (6 :: (encU32 MIN_RESERVATION_ID ++ encU16 3
        ++ ([48, 48, 48, 48, 48, 48, 48] ++ [49, 48, 48, 48, 48, 48, 48]
          ++ [50, 48, 48, 48, 48, 48, 48])))) ∧
    [49, 48, 48, 48, 48, 48, 48] ≠ [48, 48, 48, 48, 48, 48, 49] ∧
    [50, 48, 48, 48, 48, 48, 48] ≠ [48, 48, 48, 48, 48, 48, 50] :=
  ⟨by decide, by decide, by decide⟩

/-- C7 (amended): on a freshly started server (cursor `"0000000"`), the first
successful redemption of a 3-ticket reservation returns a `TICKETS` reply
whose three 7-character codes are `"0000000"`, `"1000000"`, `"2000000"` in
that order: the generator returns the current cursor on each call and then
increments it little-endian — position 0 first — by the successor rule over
digits then letters, leaving the cursor at `"3000000"`. -/
theorem c7_first_tickets :
    Reachable exCat exS1 ∧
    exS1.next_ticket = [48, 48, 48, 48, 48, 48, 48] ∧
    (generate_tickets 3 [48, 48, 48, 48, 48, 48, 48]).1
      = [[48, 48, 48, 48, 48, 48, 48], [49, 48, 48, 48, 48, 48, 48],
         [50, 48, 48, 48, 48, 48, 48]] ∧
    dispatch 101 [] exTickDgram exS1 = some (exS2,
      some (6 :: (encU32 MIN_RESERVATION_ID ++ encU16 3
        ++ [48, 48, 48, 48, 48, 48, 48, 49, 48, 48, 48, 48, 48, 48,
            50, 48, 48, 48, 48, 48, 48]))) ∧
    exS2.next_ticket = [51, 48, 48, 48, 48, 48, 48] :=
  ⟨exS1_reach, by decide, by decide, by decide, by decide⟩

/-- C6: a `GET_RESERVATION` request of length 7 is answered with
`BAD_REQUEST` carrying the decoded event id — with the server state, in
particular the event's available count, unchanged — exactly when the event id
is not in the catalog, or the ticket count is 0, exceeds `MAX_TICKETS`
(9357), or exceeds the event's current availability (so 9357 is accepted iff
at least 9357 are available). -/
theorem c6_reservation_reject {now : Nat} {draws : List Cookie} {dgram : List Byte}
    {s : TicketServer} (hlen : dgram.length = GET_RESERVATION_LEN) :
    handle_get_reservation_request now draws dgram s
        = some (s, some (badRequestBytes (decodeU32 dgram 1)))
      ↔ reservationRejected s (decodeU32 dgram 1) (decodeU16 dgram 5) = true := by
  have hlen2 : ¬ dgram.length ≠ GET_RESERVATION_LEN := fun hne => hne hlen
  simp only [handle_get_reservation_request, if_neg hlen2]
  cases hev : lookupA s.events (decodeU32 dgram 1) with
  | none => simp [reservationRejected, hev]
  | some info =>
    simp only []
    by_cases hv : valid_ticket_count (decodeU16 dgram 5) info.2 = true
    · rw [if_pos hv]
      constructor
      · intro h
        exfalso
        cases hcr : create_reservation now draws (decodeU32 dgram 1) (decodeU16 dgram 5) s with
        | none => rw [hcr] at h; cases h
        | some out =>
          rw [hcr] at h
          simp [badRequestBytes] at h
      · intro h
        exfalso
        have hvp := of_decide_eq_true hv
        simp only [reservationRejected, hev] at h
        have hrej := of_decide_eq_true h
        simp only [MAX_TICKETS] at hvp hrej
        omega
    · rw [if_neg hv]
      have hrej : reservationRejected s (decodeU32 dgram 1) (decodeU16 dgram 5) = true := by
        simp only [reservationRejected, hev]
        apply decide_eq_true
        have : ¬ (1 ≤ decodeU16 dgram 5 ∧
            decodeU16 dgram 5 ≤ min MAX_TICKETS info.2) := fun hc => hv (decide_eq_true hc)
        simp only [MAX_TICKETS] at this ⊢
        omega
      exact ⟨fun _ => hrej, fun _ => rfl⟩

/-- C6 (witness): the spec's over-reservation scenario: with event 1 holding
2 tickets, a request for 3 is answered `BAD_REQUEST` with event id 1 and the
availability stays 2. -/
theorem c6_witness :
    handle_get_reservation_request 0 [] [3, 0, 0, 0, 1, 0, 3] exS0
      = some (exS0, some (badRequestBytes (decodeU32 [3, 0, 0, 0, 1, 0, 3] 1))) ∧
    lookupAvail exS0 1 = some 2 :=
  ⟨(c6_reservation_reject (by decide)).mpr (by decide), by decide⟩

/-- C8: silent drop of malformed datagrams.  A datagram that is empty, has
an unknown first byte, or has a known type byte with the wrong length is
answered with no reply at all; and whenever a dispatch does produce a reply
whose first byte is 255 (`BAD_REQUEST`), a semantic failure — unknown event,
unreservable quantity, unknown reservation, or cookie mismatch — held in the
post-sweep state. -/
theorem c8_silent_drop :
    (∀ (now : Nat) (draws : List Cookie) (dgram : List Byte) (s s1 : TicketServer)
      (rep : Option (List Byte)), Malformed dgram = true →
      dispatch now draws dgram s = some (s1, rep) → rep = none) ∧
    (∀ (now : Nat) (draws : List Cookie) (dgram : List Byte) (s s1 : TicketServer)
      (rep : List Byte), dispatch now draws dgram s = some (s1, some rep) →
      rep.head? = some 255 →
      ∃ s2 flag, remove_expired_reservations now s = some (s2, flag) ∧
        SemanticFailure dgram s2 = true) := by
  constructor
  · intro now draws dgram s s1 rep hmal hd
    by_cases hne : dgram = []
    · simp only [dispatch, if_pos hne, Option.some.injEq, Prod.mk.injEq] at hd
      exact hd.2.symm
    · simp only [dispatch, if_neg hne] at hd
      cases hsw : remove_expired_reservations now s with
      | none => rw [hsw] at hd; cases hd
      | some out =>
        rw [hsw] at hd
        unfold handle_request at hd
        cases hb : dgram.head? with
        | none =>
          simp only [hb, Option.some.injEq, Prod.mk.injEq] at hd
          exact hd.2.symm
        | some b =>
          simp only [hb] at hd
          simp only [Malformed, hb] at hmal
          have hmal2 := of_decide_eq_true hmal
          by_cases h1 : b = 1
          · subst h1
            rw [if_pos rfl] at hd
            have hlen : dgram.length ≠ GET_EVENTS_LEN := by
              rcases hmal2 with ⟨hc, _, _⟩ | ⟨_, hc⟩ | ⟨hc, _⟩ | ⟨hc, _⟩
              · exact absurd rfl hc
              · exact hc
              · exact absurd hc (by decide)
              · exact absurd hc (by decide)
            simp only [handle_get_events_request, if_pos hlen, Option.some.injEq,
              Prod.mk.injEq] at hd
            exact hd.2.symm
          · rw [if_neg h1] at hd
            by_cases h3 : b = 3
            · subst h3
              rw [if_pos rfl] at hd
              have hlen : dgram.length ≠ GET_RESERVATION_LEN := by
                rcases hmal2 with ⟨_, hc, _⟩ | ⟨hc, _⟩ | ⟨_, hc⟩ | ⟨hc, _⟩
                · exact absurd rfl hc
                · exact absurd hc (by decide)
                · exact hc
                · exact absurd hc (by decide)
              simp only [handle_get_reservation_request, if_pos hlen, Option.some.injEq,
                Prod.mk.injEq] at hd
              exact hd.2.symm
            · rw [if_neg h3] at hd
              by_cases h5 : b = 5
              · subst h5
                rw [if_pos rfl] at hd
                have hlen : dgram.length ≠ GET_TICKETS_LEN := by
                  rcases hmal2 with ⟨_, _, hc⟩ | ⟨hc, _⟩ | ⟨hc, _⟩ | ⟨_, hc⟩
                  · exact absurd rfl hc
                  · exact absurd hc (by decide)
                  · exact absurd hc (by decide)
                  · exact hc
                simp only [handle_get_tickets_request, if_pos hlen, Option.some.injEq,
                  Prod.mk.injEq] at hd
                exact hd.2.symm
              · rw [if_neg h5] at hd
                simp only [Option.some.injEq, Prod.mk.injEq] at hd
                exact hd.2.symm
  · intro now draws dgram s s1 rep hd hhead
    by_cases hne : dgram = []
    · simp only [dispatch, if_pos hne, Option.some.injEq, Prod.mk.injEq] at hd
      cases hd.2
    · simp only [dispatch, if_neg hne] at hd
      cases hsw : remove_expired_reservations now s with
      | none => rw [hsw] at hd; cases hd
      | some out =>
        rw [hsw] at hd
        refine ⟨out.1, out.2, rfl, ?_⟩
        unfold handle_request at hd
        cases hb : dgram.head? with
        | none =>
          simp only [hb, Option.some.injEq, Prod.mk.injEq] at hd
          cases hd.2
        | some b =>
          simp only [hb] at hd
          by_cases h1 : b = 1
          · subst h1
            rw [if_pos rfl] at hd
            exfalso
            by_cases hl : dgram.length ≠ GET_EVENTS_LEN
            · simp only [handle_get_events_request, if_pos hl, Option.some.injEq,
                Prod.mk.injEq] at hd
              cases hd.2
            · simp only [handle_get_events_request, if_neg hl, Option.some.injEq,
                Prod.mk.injEq] at hd
              have h2 := hd.2
              simp only [Option.some.injEq] at h2
              rw [← h2] at hhead
              simp [send_events] at hhead
          · rw [if_neg h1] at hd
            by_cases h3 : b = 3
            · subst h3
              rw [if_pos rfl] at hd
              by_cases hl : dgram.length ≠ GET_RESERVATION_LEN
              · exfalso
                simp only [handle_get_reservation_request, if_pos hl, Option.some.injEq,
                  Prod.mk.injEq] at hd
                cases hd.2
              · have hlen : dgram.length = GET_RESERVATION_LEN := by
                  by_contra hc; exact hl hc
                simp only [handle_get_reservation_request, if_neg hl] at hd
                cases hev : lookupA out.1.events (decodeU32 dgram 1) with
                | none =>
                  simp only [SemanticFailure, hb, hev]
                  simp [hlen]
                | some info =>
                  simp only [hev] at hd
                  by_cases hv : valid_ticket_count (decodeU16 dgram 5) info.2 = true
                  · rw [if_pos hv] at hd
                    exfalso
                    cases hcr : create_reservation now draws (decodeU32 dgram 1)
                        (decodeU16 dgram 5) out.1 with
                    | none => rw [hcr] at hd; cases hd
                    | some cr =>
                      rw [hcr] at hd
                      simp only [Option.map_some', Option.some.injEq, Prod.mk.injEq,
                        List.cons.injEq] at hd
                      have h2 := hd.2
                      rw [← h2] at hhead
                      simp at hhead
                  · rw [if_neg hv] at hd
                    simp only [SemanticFailure, hb, hev]
                    have hvf : valid_ticket_count (decodeU16 dgram 5) info.2 = false := by
                      revert hv
                      cases valid_ticket_count (decodeU16 dgram 5) info.2 <;> simp
                    simp [hlen, hvf]
            · rw [if_neg h3] at hd
              by_cases h5 : b = 5
              · subst h5
                rw [if_pos rfl] at hd
                simp only [Option.some.injEq] at hd
                by_cases hl : dgram.length ≠ GET_TICKETS_LEN
                · exfalso
                  simp only [handle_get_tickets_request, if_pos hl, Prod.mk.injEq] at hd
                  cases hd.2
                · have hlen : dgram.length = GET_TICKETS_LEN := by
                    by_contra hc; exact hl hc
                  simp only [handle_get_tickets_request, if_neg hl] at hd
                  cases hres : lookupA out.1.reserved (decodeU32 dgram 1) with
                  | none =>
                    simp only [SemanticFailure, hb, hres]
                    simp [hlen]
                  | some r =>
                    simp only [hres] at hd
                    by_cases hck : (dgram.drop 5).take COOKIE_LEN = r.cookie
                    · rw [if_pos hck] at hd
                      exfalso
                      simp only [send_tickets, Prod.mk.injEq, Option.some.injEq] at hd
                      have h2 := hd.2
                      rw [← h2] at hhead
                      simp at hhead
                    · rw [if_neg hck] at hd
                      simp only [SemanticFailure, hb, hres]
                      simp [hlen, hck]
              · rw [if_neg h5] at hd
                simp only [Option.some.injEq, Prod.mk.injEq] at hd
                cases hd.2

/-- C8 (witness): a type-2 (unknown) datagram on the fresh demo server gets
no reply; the silence is derived through the theorem and checked concretely. -/
theorem c8_witness :
    Malformed [2] = true ∧ dispatch 0 [] [2] exS0 = some (exS0, none) ∧
    (none : Option (List Byte)) = none :=
  ⟨by decide, by decide, c8_silent_drop.1 0 [] [2] exS0 exS0 none (by decide) (by decide)⟩

end Cinema
